import Mathlib

/-!
# Verification of the cricket-data-parser transform pipeline

Shallow embedding of `src/cricket_parser/{models,parser,transformer,output}.py`.
JSON values are modelled by the inductive `Json`; Python dicts by ordered
association lists (`List (String × Json)`), matching insertion order.
Fatal Python exceptions (`ValueError`, `AssertionError`, `KeyError`,
`StopIteration`, `IndexError`) are modelled by `Except Err`.
-/

/-- JSON values as produced/consumed by the pipeline (objects keep key order,
as Python dicts do). Floats never occur in the pipeline's records. -/
inductive Json where
  | null : Json
  | bool (b : Bool) : Json
  | int (n : Int) : Json
  | str (s : String) : Json
  | arr (elems : List Json) : Json
  | obj (fields : List (String × Json)) : Json

/-- A flat output record: an ordered mapping from field names to values,
modelling the Python dict built by `transform_record`. -/
abbrev Record := List (String × Json)

/-- First-match lookup in an ordered mapping (Python `d[k]` / `k in d`). -/
def dictLookup (d : List (String × Json)) (k : String) : Option Json :=
  match d with
  | [] => none
  | (k', v) :: rest => if k' = k then some v else dictLookup rest k

/-- In-place overwrite of an existing key (Python `d[k] = v` on a present key:
the entry keeps its position). Keys not present are left untouched, which is
faithful here because every key assigned by the transformer is present. -/
def dictSet (d : List (String × Json)) (k : String) (v : Json) : List (String × Json) :=
  d.map (fun kv => if kv.1 = k then (kv.1, v) else kv)

/-- `models.MatchInfo` (pydantic model, all fields as declared). -/
structure MatchInfo where
  match_date : String
  match_type : String
  venue : String
  city : String
  teams : List String
  winner : Option String
  win_margin : Option Int
  win_margin_type : Option String
  toss_winner : Option String
  toss_decision : Option String
  balls_per_over : Int
  gender : String
  event : List (String × Json)

/-- `models.DeliveryInfo` (pydantic model, all fields as declared). -/
structure DeliveryInfo where
  innings_number : Int
  batting_team : String
  bowling_team : String
  over_number : Int
  ball_number : Int
  batter : String
  non_striker : String
  bowler : String
  runs_batter : Int
  runs_extras : Int
  runs_total : Int
  extras_type : Option String
  wicket_type : Option String
  wicket_player_out : Option String
  wicket_fielders : List String
  deriving DecidableEq

/-- `None`-or-string pydantic dump value. -/
def optStr : Option String → Json
  | none => Json.null
  | some s => Json.str s

/-- `None`-or-int pydantic dump value. -/
def optInt : Option Int → Json
  | none => Json.null
  | some n => Json.int n

/-- `MatchInfo.model_dump()`: all fields, in declaration order. -/
def MatchInfo.model_dump (m : MatchInfo) : List (String × Json) :=
  [ ("match_date", Json.str m.match_date)
  , ("match_type", Json.str m.match_type)
  , ("venue", Json.str m.venue)
  , ("city", Json.str m.city)
  , ("teams", Json.arr (m.teams.map Json.str))
  , ("winner", optStr m.winner)
  , ("win_margin", optInt m.win_margin)
  , ("win_margin_type", optStr m.win_margin_type)
  , ("toss_winner", optStr m.toss_winner)
  , ("toss_decision", optStr m.toss_decision)
  , ("balls_per_over", Json.int m.balls_per_over)
  , ("gender", Json.str m.gender)
  , ("event", Json.obj m.event) ]

/-- `DeliveryInfo.model_dump()`: all fields, in declaration order. -/
def DeliveryInfo.model_dump (d : DeliveryInfo) : List (String × Json) :=
  [ ("innings_number", Json.int d.innings_number)
  , ("batting_team", Json.str d.batting_team)
  , ("bowling_team", Json.str d.bowling_team)
  , ("over_number", Json.int d.over_number)
  , ("ball_number", Json.int d.ball_number)
  , ("batter", Json.str d.batter)
  , ("non_striker", Json.str d.non_striker)
  , ("bowler", Json.str d.bowler)
  , ("runs_batter", Json.int d.runs_batter)
  , ("runs_extras", Json.int d.runs_extras)
  , ("runs_total", Json.int d.runs_total)
  , ("extras_type", optStr d.extras_type)
  , ("wicket_type", optStr d.wicket_type)
  , ("wicket_player_out", optStr d.wicket_player_out)
  , ("wicket_fielders", Json.arr (d.wicket_fielders.map Json.str)) ]

/-- The fatal errors the pipeline can raise, one constructor per raising site. -/
inductive Err where
  /-- `ValueError: Missing required fields` in `transform_record`. -/
  | missingFields (fields : List String)
  /-- one of the `isinstance` asserts in `transform_record`. -/
  | typeMismatch (field : String)
  /-- `assert runs_total == runs_batter + runs_extras`. -/
  | runsTotalMismatch
  /-- `assert over_number >= 0`. -/
  | overNumberNegative
  /-- `assert 1 <= ball_number <= balls_per_over`. -/
  | ballNumberRange (ball_number : Int) (balls_per_over : Int)
  /-- `assert innings_number >= 1`. -/
  | inningsNumberRange
  /-- `ValueError` raised at end of `_process_over` when the legal-delivery
  count exceeds `balls_per_over`; carries the over number and the limit. -/
  | overOverflow (over_number : Int) (limit : Int)
  /-- `StopIteration` from `next(...)` in `_process_innings` when no team
  differs from the batting team. -/
  | noOtherTeam
  /-- `StopIteration` from `next(iter(extras.keys()))` on an empty extras dict. -/
  | emptyExtras
  /-- `IndexError` from `delivery["wickets"][0]` on an empty wickets list. -/
  | emptyWickets
  /-- `KeyError` on a missing required key of the info section. -/
  | keyError (key : String)
  /-- `IndexError` from `info["dates"][0]` on an empty dates list. -/
  | indexError
  /-- pydantic `ValidationError`: a field value of the wrong kind. -/
  | validationError
  deriving Repr, DecidableEq

/-- Field kinds checked by the transformer's `isinstance` asserts. -/
inductive FieldKind where
  | kstr | kint | klist
  deriving Repr, DecidableEq

/-- Whether a looked-up value matches the asserted `isinstance` kind. -/
def kindMatches (k : FieldKind) : Option Json → Bool
  | some (Json.str _) => k = FieldKind.kstr
  | some (Json.int _) => k = FieldKind.kint
  | some (Json.arr _) => k = FieldKind.klist
  | _ => false

/-- One `assert isinstance(record[field], ...)` of `transform_record`. -/
def assertType (record : Record) (field : String) (k : FieldKind) : Except Err Unit :=
  if kindMatches k (dictLookup record field) then pure () else throw (Err.typeMismatch field)

/-- Extract a Python int from a looked-up record value. -/
def intOf : Option Json → Option Int
  | some (Json.int n) => some n
  | _ => none

/-- The `required_fields` set literal of `transform_record`
(`transformer.py` lines 31–36), in source order. -/
def required_fields : List String :=
  [ "match_date", "match_type", "venue", "city", "teams"
  , "innings_number", "batting_team", "bowling_team"
  , "over_number", "ball_number", "batter", "non_striker"
  , "bowler", "runs_batter", "runs_extras", "runs_total" ]

/-- The merged record before validation: `record = match_info.model_dump()`
then `record.update(delivery_info.model_dump())`. The key sets are disjoint,
so the update appends the delivery fields in order. -/
def mergedRecord (m : MatchInfo) (d : DeliveryInfo) : Record :=
  m.model_dump ++ d.model_dump

/-- The required-field presence check of `transform_record`:
`missing_fields = required_fields - set(record.keys())`. -/
def missingFieldsOf (record : Record) : List String :=
  required_fields.filter (fun k => (dictLookup record k).isNone)

/-- `transformer.py` lines 38–41: raise
`ValueError("Missing required fields: ...")` when any required field is
absent from the record. -/
def check_required (record : Record) : Except Err Unit :=
  let missing := missingFieldsOf record
  if missing ≠ [] then throw (Err.missingFields missing) else pure ()

/-- `CricketDataTransformer.transform_record` (`transformer.py` lines 11–76).
Returns the validated flat record or the first fatal error, in source order:
presence check, sixteen type asserts, four numeric asserts, then the two
defensive normalizations. -/
def transform_record (m : MatchInfo) (d : DeliveryInfo) : Except Err Record := do
  let record := mergedRecord m d
  check_required record
  assertType record "match_date" FieldKind.kstr
  assertType record "match_type" FieldKind.kstr
  assertType record "venue" FieldKind.kstr
  assertType record "city" FieldKind.kstr
  assertType record "teams" FieldKind.klist
  assertType record "innings_number" FieldKind.kint
  assertType record "batting_team" FieldKind.kstr
  assertType record "bowling_team" FieldKind.kstr
  assertType record "over_number" FieldKind.kint
  assertType record "ball_number" FieldKind.kint
  assertType record "batter" FieldKind.kstr
  assertType record "non_striker" FieldKind.kstr
  assertType record "bowler" FieldKind.kstr
  assertType record "runs_batter" FieldKind.kint
  assertType record "runs_extras" FieldKind.kint
  assertType record "runs_total" FieldKind.kint
  match intOf (dictLookup record "runs_total"), intOf (dictLookup record "runs_batter"),
        intOf (dictLookup record "runs_extras") with
  | some t, some b, some e => unless t = b + e do throw Err.runsTotalMismatch
  | _, _, _ => throw Err.runsTotalMismatch
  match intOf (dictLookup record "over_number") with
  | some ov => unless 0 ≤ ov do throw Err.overNumberNegative
  | none => throw Err.overNumberNegative
  let bpo := (intOf (dictLookup record "balls_per_over")).getD 6
  match intOf (dictLookup record "ball_number") with
  | some bn => unless 1 ≤ bn ∧ bn ≤ bpo do throw (Err.ballNumberRange bn bpo)
  | none => throw (Err.ballNumberRange 0 bpo)
  match intOf (dictLookup record "innings_number") with
  | some inn => unless 1 ≤ inn do throw Err.inningsNumberRange
  | none => throw Err.inningsNumberRange
  let record := match dictLookup record "runs_extras" with
    | some (Json.int 0) => dictSet record "extras_type" Json.null
    | _ => record
  let record := match dictLookup record "wicket_type" with
    | some Json.null =>
        dictSet (dictSet record "wicket_player_out" Json.null) "wicket_fielders" (Json.arr [])
    | _ => record
  return record

/-- One entry of a source delivery's `wickets` list: its `kind`, `player_out`,
and (optionally present) `fielders`, already reduced to the fielder names that
`_process_delivery` extracts. -/
structure SrcWicket where
  kind : String
  player_out : String
  fielders : Option (List String)

/-- One delivery of the source document. `extras` is the ordered key list of
the delivery's `extras` mapping when that key is present (the code never reads
the extras values, only the keys); `wickets` is the `wickets` list when
present. -/
structure SrcDelivery where
  batter : String
  non_striker : String
  bowler : String
  runs_batter : Int
  runs_extras : Int
  runs_total : Int
  extras : Option (List String)
  wickets : Option (List SrcWicket)

/-- One over of the source document: its `over` number and `deliveries`. -/
structure SrcOver where
  over : Int
  deliveries : List SrcDelivery

/-- One innings of the source document: its `team` and `overs`. -/
structure SrcInnings where
  team : String
  overs : List SrcOver

/-- A source document: the raw `info` mapping and the `innings` list. -/
structure SrcDoc where
  info : List (String × Json)
  innings : List SrcInnings

/-- `CricketParser._process_delivery` (`parser.py` lines 173–222). -/
def _process_delivery (delivery : SrcDelivery) (over_number ball_number innings_number : Int)
    (batting_team bowling_team : String) : Except Err DeliveryInfo := do
  let extras_type ← match delivery.extras with
    | none => pure none
    | some [] => throw Err.emptyExtras
    | some (k :: _) => pure (some k)
  let (wicket_type, wicket_player_out, wicket_fielders) ← match delivery.wickets with
    | none => pure ((none : Option String), (none : Option String), ([] : List String))
    | some [] => throw Err.emptyWickets
    | some (w :: _) => pure (some w.kind, some w.player_out, w.fielders.getD [])
  return { innings_number := innings_number
         , batting_team := batting_team
         , bowling_team := bowling_team
         , over_number := over_number
         , ball_number := ball_number
         , batter := delivery.batter
         , non_striker := delivery.non_striker
         , bowler := delivery.bowler
         , runs_batter := delivery.runs_batter
         , runs_extras := delivery.runs_extras
         , runs_total := delivery.runs_total
         , extras_type := extras_type
         , wicket_type := wicket_type
         , wicket_player_out := wicket_player_out
         , wicket_fielders := wicket_fielders }

/-- Whether a delivery is a legal ball: it is illegal exactly when its extras
mapping has a `wides` or `noball` key (`parser.py` lines 154–159). -/
def isLegalDelivery (delivery : SrcDelivery) : Bool :=
  match delivery.extras with
  | none => true
  | some keys => !(keys.contains "wides" || keys.contains "noball")

/-- The delivery loop of `_process_over`: threads `ball_number` and
`legal_deliveries_count` through the deliveries, emitting one transformed
record per delivery, and returns the final legal count. -/
def processDeliveries (m : MatchInfo) (over_number innings_number : Int)
    (batting_team bowling_team : String) :
    List SrcDelivery → Int → Int → Except Err (List Record × Int)
  | [], _, legal_count => pure ([], legal_count)
  | delivery :: rest, ball_number, legal_count => do
      let is_legal := isLegalDelivery delivery
      let delivery_info ← _process_delivery delivery over_number ball_number innings_number
        batting_team bowling_team
      let record ← transform_record m delivery_info
      let (records, legal_final) ← processDeliveries m over_number innings_number
        batting_team bowling_team rest
        (if is_legal then ball_number + 1 else ball_number)
        (if is_legal then legal_count + 1 else legal_count)
      pure (record :: records, legal_final)

/-- `CricketParser._process_over` (`parser.py` lines 135–171): `ball_number`
starts at 1 and `legal_deliveries_count` at 0; both advance only after a legal
delivery; at end of over, a legal count above `balls_per_over` raises the
over-overflow `ValueError`. -/
def _process_over (over : SrcOver) (innings_number : Int)
    (batting_team bowling_team : String) (m : MatchInfo) : Except Err (List Record) := do
  let (records, legal_deliveries_count) ← processDeliveries m over.over innings_number
    batting_team bowling_team over.deliveries 1 0
  if legal_deliveries_count > m.balls_per_over then
    throw (Err.overOverflow over.over m.balls_per_over)
  return records

/-- The over loop of `_process_innings`: `results.extend(self._process_over(...))`
per over, in order. -/
def processOvers (m : MatchInfo) (innings_number : Int) (batting_team bowling_team : String) :
    List SrcOver → Except Err (List Record)
  | [] => pure []
  | over :: rest => do
      let records ← _process_over over innings_number batting_team bowling_team m
      let more ← processOvers m innings_number batting_team bowling_team rest
      pure (records ++ more)

/-- `CricketParser._process_innings` (`parser.py` lines 118–133):
`bowling_team = next(team for team in match_info.teams if team != batting_team)`,
then the overs are processed in order and their records concatenated. -/
def _process_innings (innings : SrcInnings) (innings_number : Int) (m : MatchInfo) :
    Except Err (List Record) := do
  let batting_team := innings.team
  let bowling_team ← match m.teams.find? (fun t => t != batting_team) with
    | some t => pure t
    | none => throw Err.noOtherTeam
  processOvers m innings_number batting_team bowling_team innings.overs

/-- `pat.isPrefixOf` at some position of `l`: Python's `pat in s` substring
test, on character lists. -/
def occursIn (pat : List Char) : List Char → Bool
  | [] => pat.isEmpty
  | c :: rest => pat.isPrefixOf (c :: rest) || occursIn pat rest

/-- The characters of the literal `"Women's"` searched for by the gender
heuristic (the sixth character is the apostrophe, code point 39). -/
def womensMark : List Char :=
  ['W', 'o', 'm', 'e', 'n', Char.ofNat 39, 's']

/-- Python `info[k]`: fatal `KeyError` when the key is absent. -/
def getRequired (info : List (String × Json)) (k : String) : Except Err Json :=
  match dictLookup info k with
  | some v => pure v
  | none => throw (Err.keyError k)

/-- A pydantic `str` field value: anything but a JSON string fails validation. -/
def asStr : Json → Except Err String
  | Json.str s => pure s
  | _ => throw Err.validationError

/-- A pydantic `int` field value: anything but a JSON integer fails validation. -/
def asInt : Json → Except Err Int
  | Json.int n => pure n
  | _ => throw Err.validationError

/-- `CricketParser._extract_match_info` (`parser.py` lines 63–116), composed
with pydantic's validation of the `MatchInfo` field types. -/
def _extract_match_info (info : List (String × Json)) : Except Err MatchInfo := do
  let (winner, win_margin, win_margin_type) ←
    match dictLookup info "outcome" with
    | some (Json.obj outcome) =>
      (match dictLookup outcome "winner" with
       | some w => do
          let w ← asStr w
          (match dictLookup outcome "by" with
           | some (Json.obj by_info) =>
             (match dictLookup by_info "runs" with
              | some r => do
                  pure (some w, some (← asInt r), some "runs")
              | none =>
                match dictLookup by_info "wickets" with
                | some wk => do
                    pure (some w, some (← asInt wk), some "wickets")
                | none => pure (some w, (none : Option Int), (none : Option String)))
           | some _ => throw Err.validationError
           | none => pure (some w, none, none))
       | none => pure ((none : Option String), (none : Option Int), (none : Option String)))
    | some _ => throw Err.validationError
    | none => pure (none, none, none)
  let (toss_winner, toss_decision) ←
    match dictLookup info "toss" with
    | some (Json.obj toss) => do
        let tw ← match dictLookup toss "winner" with
          | some v => pure (some (← asStr v))
          | none => pure none
        let td ← match dictLookup toss "decision" with
          | some v => pure (some (← asStr v))
          | none => pure none
        pure (tw, td)
    | some _ => throw Err.validationError
    | none => pure ((none : Option String), (none : Option String))
  let balls_per_over ← match dictLookup info "balls_per_over" with
    | some v => asInt v
    | none => pure 6
  let eventName ← match dictLookup info "event" with
    | some (Json.obj ev) =>
      (match dictLookup ev "name" with
       | some (Json.str s) => pure s
       | some _ => throw Err.validationError
       | none => pure "")
    | some _ => throw Err.validationError
    | none => pure ""
  let gender := if occursIn womensMark eventName.data then "women" else "men"
  let event ← match dictLookup info "event" with
    | some (Json.obj ev) => pure ev
    | some _ => throw Err.validationError
    | none => pure ([] : List (String × Json))
  let dates ← getRequired info "dates"
  let match_date ← match dates with
    | Json.arr (d :: _) => asStr d
    | Json.arr [] => throw Err.indexError
    | _ => throw Err.validationError
  let match_type ← asStr (← getRequired info "match_type")
  let venue ← asStr (← getRequired info "venue")
  let city ← asStr (← getRequired info "city")
  let teams ← match ← getRequired info "teams" with
    | Json.arr ts => ts.mapM asStr
    | _ => throw Err.validationError
  return { match_date := match_date
         , match_type := match_type
         , venue := venue
         , city := city
         , teams := teams
         , winner := winner
         , win_margin := win_margin
         , win_margin_type := win_margin_type
         , toss_winner := toss_winner
         , toss_decision := toss_decision
         , balls_per_over := balls_per_over
         , gender := gender
         , event := event }

/-- The innings loop of `_parse_data`:
`for innings_number, innings in enumerate(data["innings"], 1)`. -/
def processInningsFrom (m : MatchInfo) : Int → List SrcInnings → Except Err (List Record)
  | _, [] => pure []
  | n, innings :: rest => do
      let records ← _process_innings innings n m
      let more ← processInningsFrom m (n + 1) rest
      pure (records ++ more)

/-- `CricketParser._parse_data` (`parser.py` lines 47–61): extract the match
info once, then process the innings in order, numbering them from 1. -/
def _parse_data (doc : SrcDoc) : Except Err (List Record) := do
  let match_info ← _extract_match_info doc.info
  processInningsFrom match_info 1 doc.innings

/-- JSON whitespace (also what `str.strip()` removes from the lines we model). -/
def isWsCh (c : Char) : Bool :=
  c = ' ' || c = '\n' || c = '\t' || c = '\r'

/-- Decimal digit test. -/
def isDigitCh (c : Char) : Bool :=
  '0' ≤ c && c ≤ '9'

/-- The decimal digit character for `d < 10`. -/
def digCh : Nat → Char
  | 0 => '0' | 1 => '1' | 2 => '2' | 3 => '3' | 4 => '4'
  | 5 => '5' | 6 => '6' | 7 => '7' | 8 => '8' | _ => '9'

/-- The numeric value of a decimal digit character. -/
def digVal (c : Char) : Nat :=
  c.toNat - 48

/-- The decimal digits of `n`, most significant first (`str(n)` for a
non-negative int). -/
def natChars (n : Nat) : List Char :=
  if n = 0 then ['0'] else ((Nat.digits 10 n).reverse).map digCh

/-- `str(n)` for an int: a minus sign followed by the decimal digits when
negative. -/
def intChars (n : Int) : List Char :=
  if n < 0 then '-' :: natChars n.natAbs else natChars n.toNat

/-- JSON string escaping of one character, as `json.dump` produces it for the
characters that occur here: quote, backslash and the control characters
newline, carriage return and tab are escaped, everything else is verbatim. -/
def escCh (c : Char) : List Char :=
  if c = '"' then ['\\', '"']
  else if c = '\\' then ['\\', '\\']
  else if c = '\n' then ['\\', 'n']
  else if c = '\r' then ['\\', 'r']
  else if c = '\t' then ['\\', 't']
  else [c]

/-- The escaped body of a JSON string literal. -/
def escStr (s : List Char) : List Char :=
  (s.map escCh).flatten

/-- A JSON string literal: quote, escaped body, quote. -/
def strChars (s : String) : List Char :=
  '"' :: escStr s.data ++ ['"']

mutual
/-- `json.dump` of one value, as a character sequence (compact separators;
the separator choice does not affect any property proved here). -/
def dumpVal : Json → List Char
  | Json.null => ['n', 'u', 'l', 'l']
  | Json.bool true => ['t', 'r', 'u', 'e']
  | Json.bool false => ['f', 'a', 'l', 's', 'e']
  | Json.int n => intChars n
  | Json.str s => strChars s
  | Json.arr vs => '[' :: dumpArr vs ++ [']']
  | Json.obj kvs => '{' :: dumpObj kvs ++ ['}']

/-- Comma-separated dump of array elements. -/
def dumpArr : List Json → List Char
  | [] => []
  | [v] => dumpVal v
  | v :: vs => dumpVal v ++ ',' :: dumpArr vs

/-- Comma-separated dump of object members (`"key":value`). -/
def dumpObj : List (String × Json) → List Char
  | [] => []
  | [(k, v)] => strChars k ++ ':' :: dumpVal v
  | (k, v) :: kvs => strChars k ++ ':' :: dumpVal v ++ ',' :: dumpObj kvs
end

/-- Drop leading JSON whitespace. -/
def skipWs (l : List Char) : List Char :=
  l.dropWhile isWsCh

/-- Decode one escape character (the inverses of the escapes `escCh` emits). -/
def unescCh (e : Char) : Option Char :=
  if e = '"' then some '"'
  else if e = '\\' then some '\\'
  else if e = 'n' then some '\n'
  else if e = 'r' then some '\r'
  else if e = 't' then some '\t'
  else none

/-- Parse the body of a JSON string literal after the opening quote, up to and
including the closing quote; returns the decoded characters and the rest. -/
def parseStrBody : List Char → Option (List Char × List Char)
  | [] => none
  | c :: rest =>
    if c = '"' then some ([], rest)
    else if c = '\\' then
      match rest with
      | [] => none
      | e :: rest2 =>
        match unescCh e, parseStrBody rest2 with
        | some u, some (s, r) => some (u :: s, r)
        | _, _ => none
    else
      match parseStrBody rest with
      | some (s, r) => some (c :: s, r)
      | none => none

/-- Parse a non-empty run of decimal digits into a natural number. -/
def parseNatPart (l : List Char) : Option (Nat × List Char) :=
  let ds := l.takeWhile isDigitCh
  if ds.isEmpty then none
  else some (ds.foldl (fun a c => a * 10 + digVal c) 0, l.dropWhile isDigitCh)

mutual
/-- Recursive-descent JSON value parser (fuel-indexed to bound the nesting
recursion; `fuel` larger than the value's node count suffices). Skips leading
whitespace, then dispatches on the first character like `json.loads`. -/
def parseVal : Nat → List Char → Option (Json × List Char)
  | 0, _ => none
  | fuel + 1, l =>
    match skipWs l with
    | [] => none
    | c :: r =>
      if c = '{' then
        match skipWs r with
        | c2 :: r2 =>
          if c2 = '}' then some (Json.obj [], r2)
          else
            match parseObjItems fuel r with
            | some (kvs, r3) => some (Json.obj kvs, r3)
            | none => none
        | [] => none
      else if c = '[' then
        match skipWs r with
        | c2 :: r2 =>
          if c2 = ']' then some (Json.arr [], r2)
          else
            match parseArrItems fuel r with
            | some (vs, r3) => some (Json.arr vs, r3)
            | none => none
        | [] => none
      else if c = '"' then
        match parseStrBody r with
        | some (s, r2) => some (Json.str (String.mk s), r2)
        | none => none
      else if c = 't' then
        match r with
        | 'r' :: 'u' :: 'e' :: r2 => some (Json.bool true, r2)
        | _ => none
      else if c = 'f' then
        match r with
        | 'a' :: 'l' :: 's' :: 'e' :: r2 => some (Json.bool false, r2)
        | _ => none
      else if c = 'n' then
        match r with
        | 'u' :: 'l' :: 'l' :: r2 => some (Json.null, r2)
        | _ => none
      else if c = '-' then
        match parseNatPart r with
        | some (n, r2) => some (Json.int (-(n : Int)), r2)
        | none => none
      else
        match parseNatPart (c :: r) with
        | some (n, r2) => some (Json.int (n : Int), r2)
        | none => none

/-- Parse `value (',' value)* ']'` — the non-empty tail of a JSON array. -/
def parseArrItems : Nat → List Char → Option (List Json × List Char)
  | 0, _ => none
  | fuel + 1, l =>
    match parseVal fuel l with
    | some (v, r) =>
      (match skipWs r with
       | ',' :: r2 =>
         (match parseArrItems fuel r2 with
          | some (vs, r3) => some (v :: vs, r3)
          | none => none)
       | ']' :: r2 => some ([v], r2)
       | _ => none)
    | none => none

/-- Parse `"key" ':' value (',' "key" ':' value)* '}'` — the non-empty tail of
a JSON object. -/
def parseObjItems : Nat → List Char → Option (List (String × Json) × List Char)
  | 0, _ => none
  | fuel + 1, l =>
    match skipWs l with
    | '"' :: r =>
      (match parseStrBody r with
       | some (k, r2) =>
         (match skipWs r2 with
          | ':' :: r3 =>
            (match parseVal fuel r3 with
             | some (v, r4) =>
               (match skipWs r4 with
                | ',' :: r5 =>
                  (match parseObjItems fuel r5 with
                   | some (kvs, r6) => some ((String.mk k, v) :: kvs, r6)
                   | none => none)
                | '}' :: r5 => some ([(String.mk k, v)], r5)
                | _ => none)
             | none => none)
          | _ => none)
       | none => none)
    | _ => none
end

/-- `json.load` on a whole file: one value, with surrounding whitespace
allowed and nothing but whitespace after it (`json.loads(line)` likewise). -/
def parseFullJson (l : List Char) : Option Json :=
  match parseVal (l.length + 1) l with
  | some (v, rest) => if (skipWs rest).isEmpty then some v else none
  | none => none

/-- `OutputGenerator.write_output` (`output.py` lines 22–45): the content
written to the file — `json.dump(record, f)` then `'\n'`, per record. The
file is modelled by its character sequence; the existence checks on the
destination directory are I/O environment, not data, and are not modelled. -/
def write_output (data : List Json) : List Char :=
  (data.map (fun record => dumpVal record ++ ['\n'])).flatten

/-- Split file content into lines at newline characters (Python text-file
iteration; the trailing piece after the last newline is included). -/
def splitLines : List Char → List (List Char)
  | [] => [[]]
  | c :: rest =>
    if c = '\n' then [] :: splitLines rest
    else
      match splitLines rest with
      | [] => [[c]]
      | line :: lines => (c :: line) :: lines

/-- `str.strip()`: remove leading and trailing whitespace. -/
def stripChars (l : List Char) : List Char :=
  ((l.dropWhile isWsCh).reverse.dropWhile isWsCh).reverse

/-- `OutputGenerator._load_file` (`output.py` lines 74–105): try the whole
content as one JSON value and return it if it is an array; otherwise re-read
line by line, skipping empty lines and lines that fail to parse. -/
def _load_file (content : List Char) : List Json :=
  match parseFullJson content with
  | some (Json.arr data) => data
  | _ =>
    (splitLines content).foldl
      (fun records line =>
        let line := stripChars line
        if line.isEmpty then records
        else
          match parseFullJson line with
          | some record => records ++ [record]
          | none => records)
      []

/-! ## Reduction lemmas for the `Except` monad and the merged record -/

theorem exOk_bind {ε α β : Type} (a : α) (f : α → Except ε β) :
    (Except.ok a : Except ε α) >>= f = f a := rfl

theorem exError_bind {ε α β : Type} (e : ε) (f : α → Except ε β) :
    (Except.error e : Except ε α) >>= f = Except.error e := rfl

theorem exThrow_eq {ε α : Type} (e : ε) : (throw e : Except ε α) = Except.error e := rfl

theorem exPure_eq {ε α : Type} (a : α) : (pure a : Except ε α) = Except.ok a := rfl

theorem exMap_error {ε α β : Type} (f : α → β) (e : ε) :
    f <$> (Except.error e : Except ε α) = Except.error e := rfl

theorem exMap_ok {ε α β : Type} (f : α → β) (a : α) :
    f <$> (Except.ok a : Except ε α) = Except.ok (f a) := rfl

theorem merged_missing_empty (m : MatchInfo) (d : DeliveryInfo) :
    missingFieldsOf (mergedRecord m d) = [] := rfl

theorem merged_check_required (m : MatchInfo) (d : DeliveryInfo) :
    check_required (mergedRecord m d) = Except.ok () := rfl

theorem merged_runs_total (m : MatchInfo) (d : DeliveryInfo) :
    intOf (dictLookup (mergedRecord m d) "runs_total") = some d.runs_total := rfl

theorem merged_runs_batter (m : MatchInfo) (d : DeliveryInfo) :
    intOf (dictLookup (mergedRecord m d) "runs_batter") = some d.runs_batter := rfl

theorem merged_runs_extras (m : MatchInfo) (d : DeliveryInfo) :
    intOf (dictLookup (mergedRecord m d) "runs_extras") = some d.runs_extras := rfl

theorem merged_over_number (m : MatchInfo) (d : DeliveryInfo) :
    intOf (dictLookup (mergedRecord m d) "over_number") = some d.over_number := rfl

theorem merged_balls_per_over (m : MatchInfo) (d : DeliveryInfo) :
    intOf (dictLookup (mergedRecord m d) "balls_per_over") = some m.balls_per_over := rfl

theorem merged_ball_number (m : MatchInfo) (d : DeliveryInfo) :
    intOf (dictLookup (mergedRecord m d) "ball_number") = some d.ball_number := rfl

theorem merged_innings_number (m : MatchInfo) (d : DeliveryInfo) :
    intOf (dictLookup (mergedRecord m d) "innings_number") = some d.innings_number := rfl

theorem merged_lookup_runs_extras (m : MatchInfo) (d : DeliveryInfo) :
    dictLookup (mergedRecord m d) "runs_extras" = some (Json.int d.runs_extras) := rfl

theorem merged_lookup_wicket_type (m : MatchInfo) (d : DeliveryInfo) :
    dictLookup (mergedRecord m d) "wicket_type" = some (optStr d.wicket_type) := rfl

/-- The record `transform_record` returns on success: the merged record after
the two defensive normalizations (stated with the same scrutinees the
transformer uses). -/
def transformedRecord (m : MatchInfo) (d : DeliveryInfo) : Record :=
  let record := mergedRecord m d
  let record := match dictLookup record "runs_extras" with
    | some (Json.int 0) => dictSet record "extras_type" Json.null
    | _ => record
  let record := match dictLookup record "wicket_type" with
    | some Json.null =>
        dictSet (dictSet record "wicket_player_out" Json.null) "wicket_fielders" (Json.arr [])
    | _ => record
  record

theorem mergedAssert_match_date (m : MatchInfo) (d : DeliveryInfo) :
    assertType (mergedRecord m d) "match_date" FieldKind.kstr = Except.ok () := rfl

theorem mergedAssert_match_type (m : MatchInfo) (d : DeliveryInfo) :
    assertType (mergedRecord m d) "match_type" FieldKind.kstr = Except.ok () := rfl

theorem mergedAssert_venue (m : MatchInfo) (d : DeliveryInfo) :
    assertType (mergedRecord m d) "venue" FieldKind.kstr = Except.ok () := rfl

theorem mergedAssert_city (m : MatchInfo) (d : DeliveryInfo) :
    assertType (mergedRecord m d) "city" FieldKind.kstr = Except.ok () := rfl

theorem mergedAssert_teams (m : MatchInfo) (d : DeliveryInfo) :
    assertType (mergedRecord m d) "teams" FieldKind.klist = Except.ok () := rfl

theorem mergedAssert_innings_number (m : MatchInfo) (d : DeliveryInfo) :
    assertType (mergedRecord m d) "innings_number" FieldKind.kint = Except.ok () := rfl

theorem mergedAssert_batting_team (m : MatchInfo) (d : DeliveryInfo) :
    assertType (mergedRecord m d) "batting_team" FieldKind.kstr = Except.ok () := rfl

theorem mergedAssert_bowling_team (m : MatchInfo) (d : DeliveryInfo) :
    assertType (mergedRecord m d) "bowling_team" FieldKind.kstr = Except.ok () := rfl

theorem mergedAssert_over_number (m : MatchInfo) (d : DeliveryInfo) :
    assertType (mergedRecord m d) "over_number" FieldKind.kint = Except.ok () := rfl

theorem mergedAssert_ball_number (m : MatchInfo) (d : DeliveryInfo) :
    assertType (mergedRecord m d) "ball_number" FieldKind.kint = Except.ok () := rfl

theorem mergedAssert_batter (m : MatchInfo) (d : DeliveryInfo) :
    assertType (mergedRecord m d) "batter" FieldKind.kstr = Except.ok () := rfl

theorem mergedAssert_non_striker (m : MatchInfo) (d : DeliveryInfo) :
    assertType (mergedRecord m d) "non_striker" FieldKind.kstr = Except.ok () := rfl

theorem mergedAssert_bowler (m : MatchInfo) (d : DeliveryInfo) :
    assertType (mergedRecord m d) "bowler" FieldKind.kstr = Except.ok () := rfl

theorem mergedAssert_runs_batter (m : MatchInfo) (d : DeliveryInfo) :
    assertType (mergedRecord m d) "runs_batter" FieldKind.kint = Except.ok () := rfl

theorem mergedAssert_runs_extras (m : MatchInfo) (d : DeliveryInfo) :
    assertType (mergedRecord m d) "runs_extras" FieldKind.kint = Except.ok () := rfl

theorem mergedAssert_runs_total (m : MatchInfo) (d : DeliveryInfo) :
    assertType (mergedRecord m d) "runs_total" FieldKind.kint = Except.ok () := rfl

/-- Evaluation of `transform_record`: the presence check and the sixteen type
asserts always pass on a merged record (every required key is present with the
kind pydantic guarantees), so the outcome is decided by the four numeric
asserts, checked in source order. -/
theorem transform_record_eq (m : MatchInfo) (d : DeliveryInfo) :
    transform_record m d =
      if d.runs_total = d.runs_batter + d.runs_extras then
        if 0 ≤ d.over_number then
          if 1 ≤ d.ball_number ∧ d.ball_number ≤ m.balls_per_over then
            if 1 ≤ d.innings_number then Except.ok (transformedRecord m d)
            else Except.error Err.inningsNumberRange
          else Except.error (Err.ballNumberRange d.ball_number m.balls_per_over)
        else Except.error Err.overNumberNegative
      else Except.error Err.runsTotalMismatch := by
  by_cases h1 : d.runs_total = d.runs_batter + d.runs_extras <;>
  by_cases h2 : 0 ≤ d.over_number <;>
  by_cases h3 : 1 ≤ d.ball_number ∧ d.ball_number ≤ m.balls_per_over <;>
  by_cases h4 : 1 ≤ d.innings_number <;>
  simp only [transform_record, transformedRecord, merged_missing_empty, merged_check_required,
    merged_runs_total, merged_runs_batter, merged_runs_extras, merged_over_number,
    merged_balls_per_over, merged_ball_number, merged_innings_number,
    mergedAssert_match_date, mergedAssert_match_type, mergedAssert_venue, mergedAssert_city, mergedAssert_teams, mergedAssert_innings_number, mergedAssert_batting_team, mergedAssert_bowling_team, mergedAssert_over_number, mergedAssert_ball_number, mergedAssert_batter, mergedAssert_non_striker, mergedAssert_bowler, mergedAssert_runs_batter, mergedAssert_runs_extras, mergedAssert_runs_total,
    exOk_bind, exError_bind, exThrow_eq, exPure_eq, exMap_error, exMap_ok,
    Option.getD_some, h1, h2, h3, h4]

/-! ## Field values of the transformed record -/

theorem transformed_ball_number (m : MatchInfo) (d : DeliveryInfo) :
    dictLookup (transformedRecord m d) "ball_number" = some (Json.int d.ball_number) := by
  obtain ⟨inn, bt, bw, ov, bn, ba, ns, bo, rb, re, rt, et, wt, wp, wf⟩ := d
  rcases re with (_ | n) | n <;> rcases wt with _ | w <;> rfl

theorem transformed_bowling_team (m : MatchInfo) (d : DeliveryInfo) :
    dictLookup (transformedRecord m d) "bowling_team" = some (Json.str d.bowling_team) := by
  obtain ⟨inn, bt, bw, ov, bn, ba, ns, bo, rb, re, rt, et, wt, wp, wf⟩ := d
  rcases re with (_ | n) | n <;> rcases wt with _ | w <;> rfl

theorem transformed_innings_number (m : MatchInfo) (d : DeliveryInfo) :
    dictLookup (transformedRecord m d) "innings_number" = some (Json.int d.innings_number) := by
  obtain ⟨inn, bt, bw, ov, bn, ba, ns, bo, rb, re, rt, et, wt, wp, wf⟩ := d
  rcases re with (_ | n) | n <;> rcases wt with _ | w <;> rfl

theorem transformed_runs_batter (m : MatchInfo) (d : DeliveryInfo) :
    dictLookup (transformedRecord m d) "runs_batter" = some (Json.int d.runs_batter) := by
  obtain ⟨inn, bt, bw, ov, bn, ba, ns, bo, rb, re, rt, et, wt, wp, wf⟩ := d
  rcases re with (_ | n) | n <;> rcases wt with _ | w <;> rfl

theorem transformed_runs_extras (m : MatchInfo) (d : DeliveryInfo) :
    dictLookup (transformedRecord m d) "runs_extras" = some (Json.int d.runs_extras) := by
  obtain ⟨inn, bt, bw, ov, bn, ba, ns, bo, rb, re, rt, et, wt, wp, wf⟩ := d
  rcases re with (_ | n) | n <;> rcases wt with _ | w <;> rfl

theorem transformed_runs_total (m : MatchInfo) (d : DeliveryInfo) :
    dictLookup (transformedRecord m d) "runs_total" = some (Json.int d.runs_total) := by
  obtain ⟨inn, bt, bw, ov, bn, ba, ns, bo, rb, re, rt, et, wt, wp, wf⟩ := d
  rcases re with (_ | n) | n <;> rcases wt with _ | w <;> rfl

theorem transformed_extras_type (m : MatchInfo) (d : DeliveryInfo) :
    dictLookup (transformedRecord m d) "extras_type" =
      if d.runs_extras = 0 then some Json.null else some (optStr d.extras_type) := by
  obtain ⟨inn, bt, bw, ov, bn, ba, ns, bo, rb, re, rt, et, wt, wp, wf⟩ := d
  rcases re with (_ | n) | n <;> rcases wt with _ | w <;> rfl

theorem transformed_wicket_type (m : MatchInfo) (d : DeliveryInfo) :
    dictLookup (transformedRecord m d) "wicket_type" = some (optStr d.wicket_type) := by
  obtain ⟨inn, bt, bw, ov, bn, ba, ns, bo, rb, re, rt, et, wt, wp, wf⟩ := d
  rcases re with (_ | n) | n <;> rcases wt with _ | w <;> rfl

theorem transformed_wicket_player_out (m : MatchInfo) (d : DeliveryInfo) :
    dictLookup (transformedRecord m d) "wicket_player_out" =
      if d.wicket_type = none then some Json.null else some (optStr d.wicket_player_out) := by
  obtain ⟨inn, bt, bw, ov, bn, ba, ns, bo, rb, re, rt, et, wt, wp, wf⟩ := d
  rcases re with (_ | n) | n <;> rcases wt with _ | w <;> rfl

theorem transformed_wicket_fielders (m : MatchInfo) (d : DeliveryInfo) :
    dictLookup (transformedRecord m d) "wicket_fielders" =
      if d.wicket_type = none then some (Json.arr [])
      else some (Json.arr (d.wicket_fielders.map Json.str)) := by
  obtain ⟨inn, bt, bw, ov, bn, ba, ns, bo, rb, re, rt, et, wt, wp, wf⟩ := d
  rcases re with (_ | n) | n <;> rcases wt with _ | w <;> rfl

/-! ## Success and failure characterizations -/

/-- `transform_record` succeeds exactly when the four numeric asserts hold,
and then returns the normalized record. -/
theorem transform_ok_iff (m : MatchInfo) (d : DeliveryInfo) (r : Record) :
    transform_record m d = Except.ok r ↔
      ((d.runs_total = d.runs_batter + d.runs_extras ∧ 0 ≤ d.over_number ∧
        (1 ≤ d.ball_number ∧ d.ball_number ≤ m.balls_per_over) ∧ 1 ≤ d.innings_number) ∧
       r = transformedRecord m d) := by
  rw [transform_record_eq]
  split_ifs with h1 h2 h3 h4 <;> simp_all
  exact eq_comm

/-- The only errors `transform_record` can raise are the four numeric-assert
failures (the presence and type checks always pass on a merged record). -/
theorem transform_error_cases (m : MatchInfo) (d : DeliveryInfo) (e : Err) :
    transform_record m d = Except.error e →
      e = Err.runsTotalMismatch ∨ e = Err.overNumberNegative ∨
      (∃ a b, e = Err.ballNumberRange a b) ∨ e = Err.inningsNumberRange := by
  rw [transform_record_eq]
  split_ifs <;> intro h <;> simp_all
  exact Or.inr (Or.inr (Or.inl ⟨d.ball_number, m.balls_per_over, h.symm⟩))

/-- A runs mismatch makes `transform_record` raise exactly the
runs-consistency assertion error. -/
theorem transform_runs_mismatch (m : MatchInfo) (d : DeliveryInfo)
    (h : d.runs_total ≠ d.runs_batter + d.runs_extras) :
    transform_record m d = Except.error Err.runsTotalMismatch := by
  rw [transform_record_eq, if_neg h]

/-- A successful `_process_delivery` copies its positional arguments and the
delivery's runs into the `DeliveryInfo`. -/
theorem pdel_ok_fields (dl : SrcDelivery) (ov bn inn : Int) (bt bw : String)
    (di : DeliveryInfo) (h : _process_delivery dl ov bn inn bt bw = Except.ok di) :
    di.ball_number = bn ∧ di.bowling_team = bw ∧ di.innings_number = inn ∧
    di.over_number = ov ∧ di.batting_team = bt ∧
    di.runs_batter = dl.runs_batter ∧ di.runs_extras = dl.runs_extras ∧
    di.runs_total = dl.runs_total := by
  obtain ⟨ba, ns, bo, rb, re, rt, ex, wk⟩ := dl
  rcases ex with _ | (_ | ⟨k, t⟩) <;> rcases wk with _ | (_ | ⟨w, ws⟩) <;>
    simp [_process_delivery, exPure_eq, exThrow_eq, exOk_bind, exError_bind] at h <;>
    subst h <;> simp

/-- `_process_delivery` fails only on an empty extras mapping or an empty
wickets list. -/
theorem pdel_error_cases (dl : SrcDelivery) (ov bn inn : Int) (bt bw : String) (e : Err)
    (h : _process_delivery dl ov bn inn bt bw = Except.error e) :
    e = Err.emptyExtras ∨ e = Err.emptyWickets := by
  obtain ⟨ba, ns, bo, rb, re, rt, ex, wk⟩ := dl
  rcases ex with _ | (_ | ⟨k, t⟩) <;> rcases wk with _ | (_ | ⟨w, ws⟩) <;>
    simp [_process_delivery, exPure_eq, exThrow_eq, exOk_bind, exError_bind] at h <;>
    simp [h]


theorem exBind_eq_ok {ε α β : Type} (x : Except ε α) (f : α → Except ε β) (b : β) :
    x >>= f = Except.ok b ↔ ∃ a, x = Except.ok a ∧ f a = Except.ok b := by
  cases x <;> simp [exOk_bind, exError_bind]

theorem exBind_eq_error {ε α β : Type} (x : Except ε α) (f : α → Except ε β) (e : ε) :
    x >>= f = Except.error e ↔
      x = Except.error e ∨ ∃ a, x = Except.ok a ∧ f a = Except.error e := by
  cases x <;> simp [exOk_bind, exError_bind]

/-- Every record emitted by the delivery loop is a successful
`transform_record` of a `DeliveryInfo` carrying the loop's bowling team and
innings number. -/
theorem pd_mem (m : MatchInfo) (ov inn : Int) (bt bw : String) :
    ∀ (ds : List SrcDelivery) (bn lc : Int) (recs : List Record) (lf : Int),
      processDeliveries m ov inn bt bw ds bn lc = Except.ok (recs, lf) →
      ∀ r ∈ recs, ∃ di : DeliveryInfo,
        di.bowling_team = bw ∧ di.innings_number = inn ∧
        transform_record m di = Except.ok r := by
  intro ds
  induction ds with
  | nil =>
    intro bn lc recs lf h r hr
    simp only [processDeliveries, exPure_eq, Except.ok.injEq, Prod.mk.injEq] at h
    rw [← h.1] at hr
    simp at hr
  | cons dl rest ih =>
    intro bn lc recs lf h r hr
    rw [processDeliveries] at h
    rw [exBind_eq_ok] at h
    obtain ⟨di, hdi, h⟩ := h
    rw [exBind_eq_ok] at h
    obtain ⟨rec, hrec, h⟩ := h
    rw [exBind_eq_ok] at h
    obtain ⟨⟨recs', lf'⟩, hpd, h⟩ := h
    simp only [exPure_eq, Except.ok.injEq, Prod.mk.injEq] at h
    rw [← h.1] at hr
    cases hr with
    | head => exact ⟨di, (pdel_ok_fields _ _ _ _ _ _ _ hdi).2.1,
        (pdel_ok_fields _ _ _ _ _ _ _ hdi).2.2.1, hrec⟩
    | tail _ hmem => exact ih _ _ _ _ hpd r hmem

/-- The legal-count invariant of the delivery loop: starting from
`ball_number = legal_count + 1`, a successful run ends with a final legal
count bounded by the initial one or by `balls_per_over` (each processed
delivery's ball number passed the transformer's range assert). -/
theorem pd_legal_bound (m : MatchInfo) (ov inn : Int) (bt bw : String) :
    ∀ (ds : List SrcDelivery) (bn lc : Int) (recs : List Record) (lf : Int),
      bn = lc + 1 →
      processDeliveries m ov inn bt bw ds bn lc = Except.ok (recs, lf) →
      lf ≤ lc ∨ lf ≤ m.balls_per_over := by
  intro ds
  induction ds with
  | nil =>
    intro bn lc recs lf hbn h
    simp only [processDeliveries, exPure_eq, Except.ok.injEq, Prod.mk.injEq] at h
    omega
  | cons dl rest ih =>
    intro bn lc recs lf hbn h
    rw [processDeliveries] at h
    rw [exBind_eq_ok] at h
    obtain ⟨di, hdi, h⟩ := h
    rw [exBind_eq_ok] at h
    obtain ⟨rec, hrec, h⟩ := h
    rw [exBind_eq_ok] at h
    obtain ⟨⟨recs', lf'⟩, hpd, h⟩ := h
    simp only [exPure_eq, Except.ok.injEq, Prod.mk.injEq] at h
    have hball : 1 ≤ di.ball_number ∧ di.ball_number ≤ m.balls_per_over :=
      ((transform_ok_iff m di rec).mp hrec).1.2.2.1
    have hbn' : di.ball_number = bn := (pdel_ok_fields _ _ _ _ _ _ _ hdi).1
    by_cases hl : isLegalDelivery dl
    · rw [if_pos hl, if_pos hl] at hpd
      have := ih (bn + 1) (lc + 1) recs' lf' (by omega) hpd
      omega
    · rw [if_neg hl, if_neg hl] at hpd
      have := ih bn lc recs' lf' hbn hpd
      omega

/-- The delivery loop never raises the over-overflow error or the
missing-bowling-team error: its failures come from `_process_delivery` or
`transform_record`. -/
theorem pd_error_cases (m : MatchInfo) (ov inn : Int) (bt bw : String) :
    ∀ (ds : List SrcDelivery) (bn lc : Int) (e : Err),
      processDeliveries m ov inn bt bw ds bn lc = Except.error e →
      (∀ a b, e ≠ Err.overOverflow a b) ∧ e ≠ Err.noOtherTeam := by
  intro ds
  induction ds with
  | nil =>
    intro bn lc e h
    simp [processDeliveries, exPure_eq] at h
  | cons dl rest ih =>
    intro bn lc e h
    rw [processDeliveries] at h
    rw [exBind_eq_error] at h
    rcases h with h | ⟨di, hdi, h⟩
    · rcases pdel_error_cases _ _ _ _ _ _ _ h with rfl | rfl <;> simp
    · rw [exBind_eq_error] at h
      rcases h with h | ⟨rec, hrec, h⟩
      · rcases transform_error_cases _ _ _ h with rfl | rfl | ⟨a, b, rfl⟩ | rfl <;> simp
      · rw [exBind_eq_error] at h
        rcases h with h | ⟨⟨recs', lf'⟩, hpd, h⟩
        · exact ih _ _ _ h
        · simp [exPure_eq] at h

/-- Every record of a successful `_process_over` is a transformed record
carrying the over's bowling team and innings number. -/
theorem po_mem (o : SrcOver) (inn : Int) (bt bw : String) (m : MatchInfo)
    (recs : List Record) (h : _process_over o inn bt bw m = Except.ok recs) :
    ∀ r ∈ recs, ∃ di : DeliveryInfo,
      di.bowling_team = bw ∧ di.innings_number = inn ∧
      transform_record m di = Except.ok r := by
  rw [_process_over, exBind_eq_ok] at h
  obtain ⟨⟨recs', lf⟩, hpd, h⟩ := h
  intro r hr
  refine pd_mem m o.over inn bt bw o.deliveries 1 0 recs' lf hpd r ?_
  by_cases hover : lf > m.balls_per_over
  · simp [hover, exThrow_eq] at h
  · simp only [hover, if_false, ite_false, exPure_eq, exOk_bind, Except.ok.injEq] at h
    rwa [← h] at hr

/-- With a non-negative `balls_per_over`, `_process_over` can never raise the
end-of-over overflow error: the transformer's per-delivery ball-number range
assert fails first on any over that would overflow. -/
theorem po_no_overflow (o : SrcOver) (inn : Int) (bt bw : String) (m : MatchInfo)
    (hbpo : 0 ≤ m.balls_per_over) (a b : Int) :
    _process_over o inn bt bw m ≠ Except.error (Err.overOverflow a b) := by
  intro h
  rw [_process_over, exBind_eq_error] at h
  rcases h with h | ⟨⟨recs', lf⟩, hpd, h⟩
  · exact (pd_error_cases m o.over inn bt bw o.deliveries 1 0 _ h).1 a b rfl
  · have hbound := pd_legal_bound m o.over inn bt bw o.deliveries 1 0 recs' lf (by omega) hpd
    have : ¬ lf > m.balls_per_over := by omega
    simp [this, exPure_eq, exOk_bind] at h

/-- `_process_over` never raises the missing-bowling-team error. -/
theorem po_error_ne_noOtherTeam (o : SrcOver) (inn : Int) (bt bw : String) (m : MatchInfo)
    (h : _process_over o inn bt bw m = Except.error Err.noOtherTeam) : False := by
  rw [_process_over, exBind_eq_error] at h
  rcases h with h | ⟨⟨recs', lf⟩, hpd, h⟩
  · exact (pd_error_cases m o.over inn bt bw o.deliveries 1 0 _ h).2 rfl
  · by_cases hover : lf > m.balls_per_over
    · simp [hover, exThrow_eq, exError_bind] at h
    · simp [hover, exPure_eq, exOk_bind] at h

/-- `po_mem` lifted over the over loop of an innings. -/
theorem pov_mem (m : MatchInfo) (inn : Int) (bt bw : String) :
    ∀ (overs : List SrcOver) (recs : List Record),
      processOvers m inn bt bw overs = Except.ok recs →
      ∀ r ∈ recs, ∃ di : DeliveryInfo,
        di.bowling_team = bw ∧ di.innings_number = inn ∧
        transform_record m di = Except.ok r := by
  intro overs
  induction overs with
  | nil =>
    intro recs h r hr
    simp only [processOvers, exPure_eq, Except.ok.injEq] at h
    rw [← h] at hr
    simp at hr
  | cons o rest ih =>
    intro recs h r hr
    rw [processOvers, exBind_eq_ok] at h
    obtain ⟨rs, hrs, h⟩ := h
    rw [exBind_eq_ok] at h
    obtain ⟨more, hmore, h⟩ := h
    simp only [exPure_eq, Except.ok.injEq] at h
    rw [← h] at hr
    rcases List.mem_append.mp hr with hmem | hmem
    · exact po_mem o inn bt bw m rs hrs r hmem
    · exact ih more hmore r hmem

/-- The over loop never raises the missing-bowling-team error. -/
theorem pov_error_ne_noOtherTeam (m : MatchInfo) (inn : Int) (bt bw : String) :
    ∀ (overs : List SrcOver),
      processOvers m inn bt bw overs = Except.error Err.noOtherTeam → False := by
  intro overs
  induction overs with
  | nil => intro h; simp [processOvers, exPure_eq] at h
  | cons o rest ih =>
    intro h
    rw [processOvers, exBind_eq_error] at h
    rcases h with h | ⟨rs, hrs, h⟩
    · exact po_error_ne_noOtherTeam o inn bt bw m h
    · rw [exBind_eq_error] at h
      rcases h with h | ⟨more, hmore, h⟩
      · exact ih h
      · simp [exPure_eq] at h

/-- `_process_innings` raises the missing-bowling-team error exactly when
every entry of `MatchInfo.teams` equals the batting team (so `next(...)`
finds nothing) — in particular, extra or unrelated teams do not make it fail. -/
theorem pi_noOtherTeam_iff (innings : SrcInnings) (n : Int) (m : MatchInfo) :
    _process_innings innings n m = Except.error Err.noOtherTeam ↔
      ∀ t ∈ m.teams, t = innings.team := by
  rw [_process_innings]
  cases hf : m.teams.find? (fun t => t != innings.team) with
  | none =>
    simp only [exThrow_eq, exError_bind]
    rw [List.find?_eq_none] at hf
    constructor
    · intro _ t ht
      have := hf t ht
      simpa using this
    · intro _
      trivial
  | some bw =>
    simp only [exPure_eq, exOk_bind]
    constructor
    · intro h
      exact absurd h (fun hc => pov_error_ne_noOtherTeam m n innings.team bw innings.overs hc)
    · intro hall
      have hmem := List.mem_of_find?_eq_some hf
      have hne := List.find?_some hf
      rw [hall bw hmem] at hne
      simp at hne

/-- Every record of a successful `_process_innings` is a transformed record
whose bowling team is the first team of `MatchInfo.teams` that differs from
the batting team, and whose innings number is the given one. -/
theorem pi_mem (innings : SrcInnings) (n : Int) (m : MatchInfo) (bw : String)
    (hf : m.teams.find? (fun t => t != innings.team) = some bw)
    (recs : List Record) (h : _process_innings innings n m = Except.ok recs) :
    ∀ r ∈ recs, ∃ di : DeliveryInfo,
      di.bowling_team = bw ∧ di.innings_number = n ∧
      transform_record m di = Except.ok r := by
  rw [_process_innings, hf] at h
  simp only [exPure_eq, exOk_bind] at h
  exact pov_mem m n innings.team bw innings.overs recs h

/-- Every record of a successful `_process_innings` comes from a successful
`transform_record` against the same `MatchInfo`. -/
theorem pi_mem_transform (innings : SrcInnings) (n : Int) (m : MatchInfo)
    (recs : List Record) (h : _process_innings innings n m = Except.ok recs) :
    ∀ r ∈ recs, ∃ di : DeliveryInfo, transform_record m di = Except.ok r := by
  rw [_process_innings] at h
  cases hf : m.teams.find? (fun t => t != innings.team) with
  | none => rw [hf] at h; simp [exThrow_eq, exError_bind] at h
  | some bw =>
    rw [hf] at h
    simp only [exPure_eq, exOk_bind] at h
    intro r hr
    obtain ⟨di, _, _, hdi⟩ := pov_mem m n innings.team bw innings.overs recs h r hr
    exact ⟨di, hdi⟩

/-- `pi_mem_transform` lifted over the innings loop of `_parse_data`. -/
theorem pif_mem (m : MatchInfo) :
    ∀ (inns : List SrcInnings) (n : Int) (recs : List Record),
      processInningsFrom m n inns = Except.ok recs →
      ∀ r ∈ recs, ∃ di : DeliveryInfo, transform_record m di = Except.ok r := by
  intro inns
  induction inns with
  | nil =>
    intro n recs h r hr
    simp only [processInningsFrom, exPure_eq, Except.ok.injEq] at h
    rw [← h] at hr
    simp at hr
  | cons innings rest ih =>
    intro n recs h r hr
    rw [processInningsFrom, exBind_eq_ok] at h
    obtain ⟨rs, hrs, h⟩ := h
    rw [exBind_eq_ok] at h
    obtain ⟨more, hmore, h⟩ := h
    simp only [exPure_eq, Except.ok.injEq] at h
    rw [← h] at hr
    rcases List.mem_append.mp hr with hmem | hmem
    · exact pi_mem_transform innings n m rs hrs r hmem
    · exact ih (n + 1) more hmore r hmem

/-- Every record of a successful `_parse_data` comes from a successful
`transform_record` against the document's extracted `MatchInfo`. -/
theorem parse_data_mem (doc : SrcDoc) (recs : List Record)
    (h : _parse_data doc = Except.ok recs) :
    ∀ r ∈ recs, ∃ (m : MatchInfo) (di : DeliveryInfo),
      _extract_match_info doc.info = Except.ok m ∧
      transform_record m di = Except.ok r := by
  rw [_parse_data, exBind_eq_ok] at h
  obtain ⟨m, hm, h⟩ := h
  intro r hr
  obtain ⟨di, hdi⟩ := pif_mem m doc.innings 1 recs h r hr
  exact ⟨m, di, hm, hdi⟩

/-! ## Step lemmas for explicit executions -/

/-- One successful step of the delivery loop. -/
theorem pd_cons_ok (m : MatchInfo) (ov inn : Int) (bt bw : String)
    (dl : SrcDelivery) (rest : List SrcDelivery) (bn lc : Int)
    (di : DeliveryInfo) (rec : Record) (recs : List Record) (lf : Int)
    (h1 : _process_delivery dl ov bn inn bt bw = Except.ok di)
    (h2 : transform_record m di = Except.ok rec)
    (h3 : processDeliveries m ov inn bt bw rest
      (if isLegalDelivery dl then bn + 1 else bn)
      (if isLegalDelivery dl then lc + 1 else lc) = Except.ok (recs, lf)) :
    processDeliveries m ov inn bt bw (dl :: rest) bn lc = Except.ok (rec :: recs, lf) := by
  rw [processDeliveries, h1, exOk_bind, h2, exOk_bind, h3, exOk_bind]
  rfl

/-- The empty delivery list ends the loop with the accumulated legal count. -/
theorem pd_nil (m : MatchInfo) (ov inn : Int) (bt bw : String) (bn lc : Int) :
    processDeliveries m ov inn bt bw [] bn lc = Except.ok ([], lc) := rfl

/-- `_process_delivery` on a delivery with no extras and no wickets. -/
theorem pdel_plain (dl : SrcDelivery) (ov bn inn : Int) (bt bw : String)
    (hx : dl.extras = none) (hw : dl.wickets = none) :
    _process_delivery dl ov bn inn bt bw = Except.ok
      { innings_number := inn, batting_team := bt, bowling_team := bw
      , over_number := ov, ball_number := bn
      , batter := dl.batter, non_striker := dl.non_striker, bowler := dl.bowler
      , runs_batter := dl.runs_batter, runs_extras := dl.runs_extras
      , runs_total := dl.runs_total
      , extras_type := none, wicket_type := none, wicket_player_out := none
      , wicket_fielders := [] } := by
  rw [_process_delivery, hx, hw]
  rfl

/-- `_process_delivery` on a delivery whose extras mapping has keys
`k :: t` and which has no wickets: `extras_type` is the first key. -/
theorem pdel_extras (dl : SrcDelivery) (ov bn inn : Int) (bt bw : String)
    (k : String) (t : List String)
    (hx : dl.extras = some (k :: t)) (hw : dl.wickets = none) :
    _process_delivery dl ov bn inn bt bw = Except.ok
      { innings_number := inn, batting_team := bt, bowling_team := bw
      , over_number := ov, ball_number := bn
      , batter := dl.batter, non_striker := dl.non_striker, bowler := dl.bowler
      , runs_batter := dl.runs_batter, runs_extras := dl.runs_extras
      , runs_total := dl.runs_total
      , extras_type := some k, wicket_type := none, wicket_player_out := none
      , wicket_fielders := [] } := by
  rw [_process_delivery, hx, hw]
  rfl

/-- `transform_record` succeeds when the four numeric asserts hold. -/
theorem transform_ok_of (m : MatchInfo) (di : DeliveryInfo)
    (h1 : di.runs_total = di.runs_batter + di.runs_extras)
    (h2 : 0 ≤ di.over_number) (h3 : 1 ≤ di.ball_number)
    (h4 : di.ball_number ≤ m.balls_per_over) (h5 : 1 ≤ di.innings_number) :
    transform_record m di = Except.ok (transformedRecord m di) :=
  (transform_ok_iff m di (transformedRecord m di)).mpr ⟨⟨h1, h2, ⟨h3, h4⟩, h5⟩, rfl⟩

/-- `_process_over` from a completed delivery loop whose legal count is
within the limit. -/
theorem po_of_pd (o : SrcOver) (inn : Int) (bt bw : String) (m : MatchInfo)
    (recs : List Record) (lf : Int)
    (hpd : processDeliveries m o.over inn bt bw o.deliveries 1 0 = Except.ok (recs, lf))
    (hle : ¬ lf > m.balls_per_over) :
    _process_over o inn bt bw m = Except.ok recs := by
  rw [_process_over, hpd, exOk_bind]
  simp only [hle, if_false, ite_false, exPure_eq, exOk_bind]

/-- The `DeliveryInfo` a successful `_process_delivery` builds (wicket-free
case), as a function of the positional context and the extracted extras type. -/
def mkDeliveryInfo (dl : SrcDelivery) (ov bn inn : Int) (bt bw : String)
    (et : Option String) : DeliveryInfo :=
  { innings_number := inn, batting_team := bt, bowling_team := bw
  , over_number := ov, ball_number := bn
  , batter := dl.batter, non_striker := dl.non_striker, bowler := dl.bowler
  , runs_batter := dl.runs_batter, runs_extras := dl.runs_extras
  , runs_total := dl.runs_total
  , extras_type := et, wicket_type := none, wicket_player_out := none
  , wicket_fielders := [] }

/-! ## Concrete fixtures -/

/-- A two-team T20 match context with six balls per over. -/
def sampleMatch : MatchInfo :=
  { match_date := "2020-01-01", match_type := "T20", venue := "V", city := "C"
  , teams := ["A", "B"], winner := none, win_margin := none, win_margin_type := none
  , toss_winner := none, toss_decision := none, balls_per_over := 6
  , gender := "men", event := [] }

/-- A legal dot-ball delivery. -/
def plainBall : SrcDelivery :=
  { batter := "x", non_striker := "y", bowler := "z"
  , runs_batter := 0, runs_extras := 0, runs_total := 0
  , extras := none, wickets := none }

/-- A wide delivery (illegal ball): one extra run under the `wides` key. -/
def wideBall : SrcDelivery :=
  { batter := "x", non_striker := "y", bowler := "z"
  , runs_batter := 0, runs_extras := 1, runs_total := 1
  , extras := some ["wides"], wickets := none }

/-- A delivery whose extras keys include `wides` is not a legal ball. -/
theorem isLegal_false_of_wides (d : SrcDelivery) (l : List String)
    (hx : d.extras = some l) (hc : "wides" ∈ l) : isLegalDelivery d = false := by
  rw [isLegalDelivery, hx]
  simp
  intro h
  exact absurd hc h

/-- C1 (counterexample): for an over of two wides followed by four legal
balls with `balls_per_over = 6`, the code emits ball_number values
1,1,1,2,3,4 — not the claimed 1,1,2,3,4,5: a wide repeats the *pending*
ball number, which the next legal ball then also takes. -/
theorem c1_counterexample :
    (_process_over { over := 0, deliveries := [wideBall, wideBall, plainBall, plainBall, plainBall, plainBall] }
        1 "A" "B" sampleMatch).map
      (fun recs => recs.map (fun r => dictLookup r "ball_number")) =
    Except.ok [some (Json.int 1), some (Json.int 1), some (Json.int 1),
               some (Json.int 2), some (Json.int 3), some (Json.int 4)] ∧
    [some (Json.int 1), some (Json.int 1), some (Json.int 1),
     some (Json.int 2), some (Json.int 3), some (Json.int 4)] ≠
    [some (Json.int 1), some (Json.int 1), some (Json.int 2),
     some (Json.int 3), some (Json.int 4), some (Json.int 5)] := by
  constructor
  · rfl
  · simp

/-- C1 (amended): for any source over whose deliveries are two wide balls
followed by four legal balls (with `balls_per_over = 6`), processing
produces six records whose `ball_number` values are, in order,
1,1,1,2,3,4 — the wides and the first legal ball all carry ball_number 1. -/
theorem c1_amended (m : MatchInfo) (ov inn : Int) (bt bw : String)
    (d1 d2 d3 d4 d5 d6 : SrcDelivery)
    (hbpo : m.balls_per_over = 6) (hov : 0 ≤ ov) (hinn : 1 ≤ inn)
    (hx1 : ∃ l, d1.extras = some l ∧ "wides" ∈ l) (hw1 : d1.wickets = none)
    (hx2 : ∃ l, d2.extras = some l ∧ "wides" ∈ l) (hw2 : d2.wickets = none)
    (hx3 : d3.extras = none) (hw3 : d3.wickets = none)
    (hx4 : d4.extras = none) (hw4 : d4.wickets = none)
    (hx5 : d5.extras = none) (hw5 : d5.wickets = none)
    (hx6 : d6.extras = none) (hw6 : d6.wickets = none)
    (hr1 : d1.runs_total = d1.runs_batter + d1.runs_extras)
    (hr2 : d2.runs_total = d2.runs_batter + d2.runs_extras)
    (hr3 : d3.runs_total = d3.runs_batter + d3.runs_extras)
    (hr4 : d4.runs_total = d4.runs_batter + d4.runs_extras)
    (hr5 : d5.runs_total = d5.runs_batter + d5.runs_extras)
    (hr6 : d6.runs_total = d6.runs_batter + d6.runs_extras) :
    ∃ recs, _process_over { over := ov, deliveries := [d1, d2, d3, d4, d5, d6] } inn bt bw m
        = Except.ok recs ∧
      recs.map (fun r => dictLookup r "ball_number") =
        [some (Json.int 1), some (Json.int 1), some (Json.int 1),
         some (Json.int 2), some (Json.int 3), some (Json.int 4)] := by
  obtain ⟨l1, hxl1, hc1⟩ := hx1
  obtain ⟨l2, hxl2, hc2⟩ := hx2
  obtain ⟨k1, t1, rfl⟩ : ∃ k t, l1 = k :: t := by
    cases l1 with
    | nil => simp at hc1
    | cons k t => exact ⟨k, t, rfl⟩
  obtain ⟨k2, t2, rfl⟩ : ∃ k t, l2 = k :: t := by
    cases l2 with
    | nil => simp at hc2
    | cons k t => exact ⟨k, t, rfl⟩
  have hleg1 : isLegalDelivery d1 = false := isLegal_false_of_wides d1 _ hxl1 hc1
  have hleg2 : isLegalDelivery d2 = false := isLegal_false_of_wides d2 _ hxl2 hc2
  have hleg3 : isLegalDelivery d3 = true := by simp [isLegalDelivery, hx3]
  have hleg4 : isLegalDelivery d4 = true := by simp [isLegalDelivery, hx4]
  have hleg5 : isLegalDelivery d5 = true := by simp [isLegalDelivery, hx5]
  have hleg6 : isLegalDelivery d6 = true := by simp [isLegalDelivery, hx6]
  have step6 : processDeliveries m ov inn bt bw [d6] 4 3 =
      Except.ok ([transformedRecord m (mkDeliveryInfo d6 ov 4 inn bt bw none)], 4) := by
    refine pd_cons_ok m ov inn bt bw d6 [] 4 3 _ _ [] 4
      (pdel_plain d6 ov 4 inn bt bw hx6 hw6)
      (transform_ok_of m _ hr6 hov (by show (1:Int) ≤ 4; decide)
        (by show (4:Int) ≤ m.balls_per_over; omega) hinn) ?_
    rw [hleg6]
    exact pd_nil m ov inn bt bw 5 4
  have step5 : processDeliveries m ov inn bt bw [d5, d6] 3 2 =
      Except.ok ([transformedRecord m (mkDeliveryInfo d5 ov 3 inn bt bw none),
                  transformedRecord m (mkDeliveryInfo d6 ov 4 inn bt bw none)], 4) := by
    refine pd_cons_ok m ov inn bt bw d5 [d6] 3 2 _ _ _ 4
      (pdel_plain d5 ov 3 inn bt bw hx5 hw5)
      (transform_ok_of m _ hr5 hov (by show (1:Int) ≤ 3; decide)
        (by show (3:Int) ≤ m.balls_per_over; omega) hinn) ?_
    rw [hleg5]
    exact step6
  have step4 : processDeliveries m ov inn bt bw [d4, d5, d6] 2 1 =
      Except.ok ([transformedRecord m (mkDeliveryInfo d4 ov 2 inn bt bw none),
                  transformedRecord m (mkDeliveryInfo d5 ov 3 inn bt bw none),
                  transformedRecord m (mkDeliveryInfo d6 ov 4 inn bt bw none)], 4) := by
    refine pd_cons_ok m ov inn bt bw d4 [d5, d6] 2 1 _ _ _ 4
      (pdel_plain d4 ov 2 inn bt bw hx4 hw4)
      (transform_ok_of m _ hr4 hov (by show (1:Int) ≤ 2; decide)
        (by show (2:Int) ≤ m.balls_per_over; omega) hinn) ?_
    rw [hleg4]
    exact step5
  have step3 : processDeliveries m ov inn bt bw [d3, d4, d5, d6] 1 0 =
      Except.ok ([transformedRecord m (mkDeliveryInfo d3 ov 1 inn bt bw none),
                  transformedRecord m (mkDeliveryInfo d4 ov 2 inn bt bw none),
                  transformedRecord m (mkDeliveryInfo d5 ov 3 inn bt bw none),
                  transformedRecord m (mkDeliveryInfo d6 ov 4 inn bt bw none)], 4) := by
    refine pd_cons_ok m ov inn bt bw d3 [d4, d5, d6] 1 0 _ _ _ 4
      (pdel_plain d3 ov 1 inn bt bw hx3 hw3)
      (transform_ok_of m _ hr3 hov (by show (1:Int) ≤ 1; decide)
        (by show (1:Int) ≤ m.balls_per_over; omega) hinn) ?_
    rw [hleg3]
    exact step4
  have step2 : processDeliveries m ov inn bt bw [d2, d3, d4, d5, d6] 1 0 =
      Except.ok ([transformedRecord m (mkDeliveryInfo d2 ov 1 inn bt bw (some k2)),
                  transformedRecord m (mkDeliveryInfo d3 ov 1 inn bt bw none),
                  transformedRecord m (mkDeliveryInfo d4 ov 2 inn bt bw none),
                  transformedRecord m (mkDeliveryInfo d5 ov 3 inn bt bw none),
                  transformedRecord m (mkDeliveryInfo d6 ov 4 inn bt bw none)], 4) := by
    refine pd_cons_ok m ov inn bt bw d2 [d3, d4, d5, d6] 1 0 _ _ _ 4
      (pdel_extras d2 ov 1 inn bt bw k2 t2 hxl2 hw2)
      (transform_ok_of m _ hr2 hov (by show (1:Int) ≤ 1; decide)
        (by show (1:Int) ≤ m.balls_per_over; omega) hinn) ?_
    rw [hleg2]
    exact step3
  have step1 : processDeliveries m ov inn bt bw [d1, d2, d3, d4, d5, d6] 1 0 =
      Except.ok ([transformedRecord m (mkDeliveryInfo d1 ov 1 inn bt bw (some k1)),
                  transformedRecord m (mkDeliveryInfo d2 ov 1 inn bt bw (some k2)),
                  transformedRecord m (mkDeliveryInfo d3 ov 1 inn bt bw none),
                  transformedRecord m (mkDeliveryInfo d4 ov 2 inn bt bw none),
                  transformedRecord m (mkDeliveryInfo d5 ov 3 inn bt bw none),
                  transformedRecord m (mkDeliveryInfo d6 ov 4 inn bt bw none)], 4) := by
    refine pd_cons_ok m ov inn bt bw d1 [d2, d3, d4, d5, d6] 1 0 _ _ _ 4
      (pdel_extras d1 ov 1 inn bt bw k1 t1 hxl1 hw1)
      (transform_ok_of m _ hr1 hov (by show (1:Int) ≤ 1; decide)
        (by show (1:Int) ≤ m.balls_per_over; omega) hinn) ?_
    rw [hleg1]
    exact step2
  refine ⟨_, po_of_pd _ inn bt bw m _ 4 step1 (by omega), ?_⟩
  simp [transformed_ball_number, mkDeliveryInfo]

/-- C1 (witness): the amended theorem applied to a concrete over of two
wides then four dot balls. -/
theorem c1_witness :
    ∃ recs, _process_over { over := 0, deliveries := [wideBall, wideBall, plainBall, plainBall, plainBall, plainBall] }
        1 "A" "B" sampleMatch = Except.ok recs ∧
      recs.map (fun r => dictLookup r "ball_number") =
        [some (Json.int 1), some (Json.int 1), some (Json.int 1),
         some (Json.int 2), some (Json.int 3), some (Json.int 4)] :=
  c1_amended sampleMatch 0 1 "A" "B" wideBall wideBall plainBall plainBall plainBall plainBall
    rfl (by decide) (by decide)
    ⟨["wides"], rfl, by decide⟩ rfl ⟨["wides"], rfl, by decide⟩ rfl
    rfl rfl rfl rfl rfl rfl rfl rfl
    (by decide) (by decide) rfl rfl rfl rfl

/-- An over of seven legal deliveries. -/
def sevenLegalOver : SrcOver :=
  { over := 3
  , deliveries := [plainBall, plainBall, plainBall, plainBall, plainBall, plainBall, plainBall] }

/-- C2 (counterexample): an over with 7 legal deliveries and
`balls_per_over = 6` makes processing raise the transformer's ball-number
range assertion (ball 7, limit 6) on the 7th delivery — not the end-of-over
over-overflow error the claim describes. -/
theorem c2_counterexample :
    _process_over sevenLegalOver 1 "A" "B" sampleMatch =
      Except.error (Err.ballNumberRange 7 6) ∧
    Err.ballNumberRange 7 6 ≠ Err.overOverflow 3 6 := by
  constructor
  · rfl
  · decide

/-- C2 (amended): an over with 7 legal deliveries when `balls_per_over = 6`
raises a fatal error, but it is the transformer's ball-number range
assertion, raised mid-over on the 7th legal delivery; the end-of-over
over-overflow check can never fire for any over with a non-negative
`balls_per_over`, because the range assertion always fails first. -/
theorem c2_amended :
    (∀ (o : SrcOver) (inn : Int) (bt bw : String) (m : MatchInfo),
      0 ≤ m.balls_per_over → ∀ a b : Int,
        _process_over o inn bt bw m ≠ Except.error (Err.overOverflow a b)) ∧
    _process_over sevenLegalOver 1 "A" "B" sampleMatch =
      Except.error (Err.ballNumberRange 7 6) := by
  constructor
  · intro o inn bt bw m hbpo a b
    exact po_no_overflow o inn bt bw m hbpo a b
  · rfl

/-- C2 (witness): the amended theorem's overflow-unreachability applied to
the concrete seven-legal-delivery over. -/
theorem c2_witness :
    _process_over sevenLegalOver 1 "A" "B" sampleMatch ≠
      Except.error (Err.overOverflow 3 6) :=
  c2_amended.1 sevenLegalOver 1 "A" "B" sampleMatch (by decide) 3 6

/-- A match context listing three teams. -/
def threeTeamMatch : MatchInfo :=
  { sampleMatch with teams := ["A", "B", "C"] }

/-- A match context whose teams list contains only the batting team. -/
def oneTeamMatch : MatchInfo :=
  { sampleMatch with teams := ["A"] }

/-- C3 (counterexample): with `teams = ["A","B","C"]` — not "the batting
team plus exactly one other" — processing an innings for batting team `A`
succeeds (bowling team `B`, the first differing entry), so the claimed
failure condition is wrong. -/
theorem c3_counterexample :
    (_process_innings { team := "A", overs := [{ over := 0, deliveries := [plainBall] }] }
        1 threeTeamMatch).map
      (fun recs => recs.map (fun r => dictLookup r "bowling_team")) =
    Except.ok [some (Json.str "B")] := rfl

/-- C3 (amended): `bowling_team` is the first entry of `MatchInfo.teams`
that differs from the batting team, and processing the innings fails with
the missing-team error exactly when every entry of `MatchInfo.teams` equals
the batting team. -/
theorem c3_amended :
    (∀ (innings : SrcInnings) (n : Int) (m : MatchInfo),
      _process_innings innings n m = Except.error Err.noOtherTeam ↔
        ∀ t ∈ m.teams, t = innings.team) ∧
    (∀ (innings : SrcInnings) (n : Int) (m : MatchInfo) (bw : String)
       (recs : List Record),
      m.teams.find? (fun t => t != innings.team) = some bw →
      _process_innings innings n m = Except.ok recs →
      ∀ r ∈ recs, dictLookup r "bowling_team" = some (Json.str bw)) := by
  constructor
  · exact pi_noOtherTeam_iff
  · intro innings n m bw recs hf h r hr
    obtain ⟨di, hbw, _, hdi⟩ := pi_mem innings n m bw hf recs h r hr
    obtain ⟨_, rfl⟩ := (transform_ok_iff m di r).mp hdi
    rw [transformed_bowling_team, hbw]

/-- C3 (witness): the amended theorem applied to a one-team context (fails)
and to the three-team context (succeeds with bowling team `B`). -/
theorem c3_witness :
    _process_innings { team := "A", overs := [] } 1 oneTeamMatch =
      Except.error Err.noOtherTeam ∧
    dictLookup (transformedRecord threeTeamMatch (mkDeliveryInfo plainBall 0 1 1 "A" "B" none))
      "bowling_team" = some (Json.str "B") := by
  constructor
  · exact (c3_amended.1 { team := "A", overs := [] } 1 oneTeamMatch).mpr (by decide)
  · exact c3_amended.2 { team := "A", overs := [{ over := 0, deliveries := [plainBall] }] }
      1 threeTeamMatch "B"
      [transformedRecord threeTeamMatch (mkDeliveryInfo plainBall 0 1 1 "A" "B" none)]
      rfl rfl _ (List.mem_singleton.mpr rfl)

/-- The required-key set of a flat output record as enumerated by section 6
of the specification ("Flat output record — required keys"), in the spec's
order. This definition follows the spec's words, for comparison with the
code's `required_fields`. -/
def specSection6RequiredKeys : List String :=
  [ "match_date", "match_type", "venue", "city", "teams", "gender", "event"
  , "innings_number", "batting_team", "bowling_team", "over_number", "ball_number"
  , "batter", "non_striker", "bowler", "runs_batter", "runs_extras", "runs_total" ]

/-- C4 (counterexample): the transformer's fixed check set is not equal to
the section-6 required-key set — `gender` (and `event`) are required by
section 6 but absent from the code's 16-name set. -/
theorem c4_counterexample :
    required_fields.toFinset ≠ specSection6RequiredKeys.toFinset ∧
    "gender" ∈ specSection6RequiredKeys ∧ "gender" ∉ required_fields ∧
    "event" ∈ specSection6RequiredKeys ∧ "event" ∉ required_fields := by
  refine ⟨?_, by decide, by decide, by decide, by decide⟩
  intro h
  have : "gender" ∈ required_fields.toFinset := by rw [h]; decide
  revert this
  decide

/-- C4 (amended): the presence check uses a fixed set of 16 field names,
which is the section-6 required-key set minus `gender` and `event`; any
record lacking one of those 16 keys has it reported in the missing set, and
the check raises the fatal missing-required-fields error naming exactly the
missing keys. -/
theorem c4_amended :
    required_fields.length = 16 ∧
    required_fields.toFinset = specSection6RequiredKeys.toFinset \ {"gender", "event"} ∧
    (∀ record : Record, missingFieldsOf record ≠ [] →
      check_required record = Except.error (Err.missingFields (missingFieldsOf record))) ∧
    (∀ (record : Record) (k : String), k ∈ required_fields →
      dictLookup record k = none → k ∈ missingFieldsOf record) := by
  refine ⟨by decide, by decide, ?_, ?_⟩
  · intro record h
    rw [check_required]
    simp only [h, ne_eq, not_false_iff, if_true, ite_true, exThrow_eq]
  · intro record k hk hnone
    rw [missingFieldsOf]
    exact List.mem_filter.mpr ⟨hk, by simp [hnone]⟩

/-- C4 (witness): the amended check behavior applied to the empty record,
from which every required key is missing. -/
theorem c4_witness :
    check_required [] = Except.error (Err.missingFields (missingFieldsOf [])) ∧
    "venue" ∈ missingFieldsOf [] :=
  ⟨c4_amended.2.2.1 [] (by decide), c4_amended.2.2.2 [] "venue" (by decide) rfl⟩

/-- `optStr` yields JSON null only for `none`. -/
theorem optStr_eq_null {x : Option String} (h : optStr x = Json.null) : x = none := by
  cases x with
  | none => rfl
  | some s => simp [optStr] at h

/-- The `info` mapping of a minimal valid source document. -/
def sampleInfo : List (String × Json) :=
  [ ("dates", Json.arr [Json.str "2020-01-01"])
  , ("match_type", Json.str "T20")
  , ("venue", Json.str "V")
  , ("city", Json.str "C")
  , ("teams", Json.arr [Json.str "A", Json.str "B"]) ]

/-- A minimal valid source document: one innings, one over, one dot ball. -/
def sampleDoc : SrcDoc :=
  { info := sampleInfo
  , innings := [ { team := "A", overs := [{ over := 0, deliveries := [plainBall] }] } ] }

/-- A delivery record violating the runs-consistency equation. -/
def badRunsDelivery : DeliveryInfo :=
  { innings_number := 1, batting_team := "A", bowling_team := "B"
  , over_number := 0, ball_number := 1
  , batter := "x", non_striker := "y", bowler := "z"
  , runs_batter := 1, runs_extras := 1, runs_total := 5
  , extras_type := none, wicket_type := none, wicket_player_out := none
  , wicket_fielders := [] }

/-- C6: every record of a successfully parsed document satisfies
`runs_total = runs_batter + runs_extras`, and a delivery violating the
equation makes `transform_record` raise the fatal runs-consistency error,
so no record is produced for it. -/
theorem c6_runs_invariant :
    (∀ (doc : SrcDoc) (recs : List Record), _parse_data doc = Except.ok recs →
      ∀ r ∈ recs, ∃ b e : Int,
        dictLookup r "runs_batter" = some (Json.int b) ∧
        dictLookup r "runs_extras" = some (Json.int e) ∧
        dictLookup r "runs_total" = some (Json.int (b + e))) ∧
    (∀ (m : MatchInfo) (d : DeliveryInfo),
      d.runs_total ≠ d.runs_batter + d.runs_extras →
      transform_record m d = Except.error Err.runsTotalMismatch) := by
  constructor
  · intro doc recs h r hr
    obtain ⟨m, di, _, hdi⟩ := parse_data_mem doc recs h r hr
    obtain ⟨⟨hruns, _⟩, rfl⟩ := (transform_ok_iff m di r).mp hdi
    exact ⟨di.runs_batter, di.runs_extras,
      transformed_runs_batter m di, transformed_runs_extras m di,
      by rw [transformed_runs_total, hruns]⟩
  · exact transform_runs_mismatch

/-- C6 (witness): the invariant on the minimal document's record, and the
fatal error on a concrete violating delivery. -/
theorem c6_witness :
    (∃ b e : Int,
      dictLookup (transformedRecord sampleMatch (mkDeliveryInfo plainBall 0 1 1 "A" "B" none))
        "runs_batter" = some (Json.int b) ∧
      dictLookup (transformedRecord sampleMatch (mkDeliveryInfo plainBall 0 1 1 "A" "B" none))
        "runs_extras" = some (Json.int e) ∧
      dictLookup (transformedRecord sampleMatch (mkDeliveryInfo plainBall 0 1 1 "A" "B" none))
        "runs_total" = some (Json.int (b + e))) ∧
    transform_record sampleMatch badRunsDelivery = Except.error Err.runsTotalMismatch :=
  ⟨c6_runs_invariant.1 sampleDoc
      [transformedRecord sampleMatch (mkDeliveryInfo plainBall 0 1 1 "A" "B" none)]
      rfl _ (List.mem_singleton.mpr rfl),
   c6_runs_invariant.2 sampleMatch badRunsDelivery (by decide)⟩

/-- C7: in every record the transformer produces, a zero `runs_extras`
forces `extras_type` to null, whatever the traversal put there. -/
theorem c7_extras_normalized (m : MatchInfo) (d : DeliveryInfo) (r : Record)
    (h : transform_record m d = Except.ok r)
    (hzero : dictLookup r "runs_extras" = some (Json.int 0)) :
    dictLookup r "extras_type" = some Json.null := by
  obtain ⟨_, rfl⟩ := (transform_ok_iff m d r).mp h
  rw [transformed_runs_extras] at hzero
  have : d.runs_extras = 0 := by
    injection hzero with hz
    injection hz
  rw [transformed_extras_type, if_pos this]

/-- C7 (witness): a delivery whose traversal-set `extras_type` is non-null
but whose `runs_extras` is zero comes out with a null `extras_type`. -/
theorem c7_witness :
    dictLookup (transformedRecord sampleMatch (mkDeliveryInfo plainBall 0 1 1 "A" "B" (some "byes")))
      "extras_type" = some Json.null :=
  c7_extras_normalized sampleMatch (mkDeliveryInfo plainBall 0 1 1 "A" "B" (some "byes")) _
    rfl rfl

/-- C8: in every record the transformer produces, a null `wicket_type`
forces `wicket_player_out` to null and `wicket_fielders` to the empty
sequence. -/
theorem c8_wicket_normalized (m : MatchInfo) (d : DeliveryInfo) (r : Record)
    (h : transform_record m d = Except.ok r)
    (hnull : dictLookup r "wicket_type" = some Json.null) :
    dictLookup r "wicket_player_out" = some Json.null ∧
    dictLookup r "wicket_fielders" = some (Json.arr []) := by
  obtain ⟨_, rfl⟩ := (transform_ok_iff m d r).mp h
  rw [transformed_wicket_type] at hnull
  have hnone : d.wicket_type = none := by
    injection hnull with hz
    exact optStr_eq_null hz
  rw [transformed_wicket_player_out, transformed_wicket_fielders, if_pos hnone, if_pos hnone]
  exact ⟨rfl, rfl⟩

/-- A wicket-free delivery whose traversal output nonetheless carries a
dismissed player and fielders. -/
def strayWicketDelivery : DeliveryInfo :=
  { innings_number := 1, batting_team := "A", bowling_team := "B"
  , over_number := 0, ball_number := 1
  , batter := "x", non_striker := "y", bowler := "z"
  , runs_batter := 0, runs_extras := 0, runs_total := 0
  , extras_type := none, wicket_type := none, wicket_player_out := some "p"
  , wicket_fielders := ["f1", "f2"] }

/-- C8 (witness): the normalization applied to a concrete record with a
null `wicket_type` but stray player/fielder values. -/
theorem c8_witness :
    dictLookup (transformedRecord sampleMatch strayWicketDelivery) "wicket_player_out" =
      some Json.null ∧
    dictLookup (transformedRecord sampleMatch strayWicketDelivery) "wicket_fielders" =
      some (Json.arr []) :=
  c8_wicket_normalized sampleMatch strayWicketDelivery _ rfl rfl

/-! ## State-threaded pipeline: tracking the `MatchInfo` object

Python passes the one `MatchInfo` object by reference through the whole
traversal. To verify it is never mutated, the functions below thread the
object's field values as explicit state: every operation returns the
`MatchInfo` it leaves behind (built by retracing its statements — none of
which assigns to a `match_info` attribute), and each later operation
receives the state the previous one returned. Equality of this pipeline
with the plain one, with the state coming back unchanged, is exactly the
no-mutation / safe-sharing property. -/

/-- `transform_record`, with the `match_info` object's post-call state made
explicit. Its statements read `match_info` (`model_dump()`) and write only
the local `record` dict, so the returned state is the argument. -/
def transform_record_st (m : MatchInfo) (d : DeliveryInfo) :
    Except Err (Record × MatchInfo) := do
  let record := mergedRecord m d
  check_required record
  assertType record "match_date" FieldKind.kstr
  assertType record "match_type" FieldKind.kstr
  assertType record "venue" FieldKind.kstr
  assertType record "city" FieldKind.kstr
  assertType record "teams" FieldKind.klist
  assertType record "innings_number" FieldKind.kint
  assertType record "batting_team" FieldKind.kstr
  assertType record "bowling_team" FieldKind.kstr
  assertType record "over_number" FieldKind.kint
  assertType record "ball_number" FieldKind.kint
  assertType record "batter" FieldKind.kstr
  assertType record "non_striker" FieldKind.kstr
  assertType record "bowler" FieldKind.kstr
  assertType record "runs_batter" FieldKind.kint
  assertType record "runs_extras" FieldKind.kint
  assertType record "runs_total" FieldKind.kint
  match intOf (dictLookup record "runs_total"), intOf (dictLookup record "runs_batter"),
        intOf (dictLookup record "runs_extras") with
  | some t, some b, some e => unless t = b + e do throw Err.runsTotalMismatch
  | _, _, _ => throw Err.runsTotalMismatch
  match intOf (dictLookup record "over_number") with
  | some ov => unless 0 ≤ ov do throw Err.overNumberNegative
  | none => throw Err.overNumberNegative
  let bpo := (intOf (dictLookup record "balls_per_over")).getD 6
  match intOf (dictLookup record "ball_number") with
  | some bn => unless 1 ≤ bn ∧ bn ≤ bpo do throw (Err.ballNumberRange bn bpo)
  | none => throw (Err.ballNumberRange 0 bpo)
  match intOf (dictLookup record "innings_number") with
  | some inn => unless 1 ≤ inn do throw Err.inningsNumberRange
  | none => throw Err.inningsNumberRange
  let record := match dictLookup record "runs_extras" with
    | some (Json.int 0) => dictSet record "extras_type" Json.null
    | _ => record
  let record := match dictLookup record "wicket_type" with
    | some Json.null =>
        dictSet (dictSet record "wicket_player_out" Json.null) "wicket_fielders" (Json.arr [])
    | _ => record
  return (record, m)

/-- The delivery loop with the `MatchInfo` state threaded: every delivery's
transform receives the state the previous transform returned. -/
def processDeliveries_st (ov inn : Int) (bt bw : String) :
    List SrcDelivery → MatchInfo → Int → Int → Except Err (List Record × Int × MatchInfo)
  | [], m, _, lc => pure ([], lc, m)
  | dl :: rest, m, bn, lc => do
      let di ← _process_delivery dl ov bn inn bt bw
      let (rec, m') ← transform_record_st m di
      let (recs, lf, m'') ← processDeliveries_st ov inn bt bw rest m'
        (if isLegalDelivery dl then bn + 1 else bn)
        (if isLegalDelivery dl then lc + 1 else lc)
      pure (rec :: recs, lf, m'')

/-- `_process_over` with the `MatchInfo` state threaded; the end-of-over
check reads `balls_per_over` from the state left by the deliveries. -/
def _process_over_st (o : SrcOver) (inn : Int) (bt bw : String) (m : MatchInfo) :
    Except Err (List Record × MatchInfo) := do
  let (records, lf, m') ← processDeliveries_st o.over inn bt bw o.deliveries m 1 0
  if lf > m'.balls_per_over then throw (Err.overOverflow o.over m'.balls_per_over)
  return (records, m')

/-- The over loop with the `MatchInfo` state threaded. -/
def processOvers_st (inn : Int) (bt bw : String) :
    List SrcOver → MatchInfo → Except Err (List Record × MatchInfo)
  | [], m => pure ([], m)
  | o :: rest, m => do
      let (rs, m') ← _process_over_st o inn bt bw m
      let (more, m'') ← processOvers_st inn bt bw rest m'
      pure (rs ++ more, m'')

/-- `_process_innings` with the `MatchInfo` state threaded; the bowling team
is read from the incoming state, as the source does before its over loop. -/
def _process_innings_st (innings : SrcInnings) (n : Int) (m : MatchInfo) :
    Except Err (List Record × MatchInfo) := do
  let batting_team := innings.team
  let bowling_team ← match m.teams.find? (fun t => t != batting_team) with
    | some t => pure t
    | none => throw Err.noOtherTeam
  processOvers_st n batting_team bowling_team innings.overs m

/-- The innings loop with the `MatchInfo` state threaded. -/
def processInningsFrom_st : Int → List SrcInnings → MatchInfo → Except Err (List Record × MatchInfo)
  | _, [], m => pure ([], m)
  | n, innings :: rest, m => do
      let (rs, m') ← _process_innings_st innings n m
      let (more, m'') ← processInningsFrom_st (n + 1) rest m'
      pure (rs ++ more, m'')

/-- `_parse_data` with the `MatchInfo` constructed once and then threaded
through every innings, over and delivery. -/
def _parse_data_st (doc : SrcDoc) : Except Err (List Record × MatchInfo) := do
  let match_info ← _extract_match_info doc.info
  processInningsFrom_st 1 doc.innings match_info

theorem exceptMap_ok {ε α β : Type} (f : α → β) (a : α) :
    Except.map f (Except.ok a : Except ε α) = Except.ok (f a) := rfl

theorem exceptMap_error {ε α β : Type} (f : α → β) (e : ε) :
    Except.map f (Except.error e : Except ε α) = Except.error e := rfl

/-- The state-threaded transformer equals the plain one and returns its
`MatchInfo` argument unchanged. -/
theorem transform_record_st_eq (m : MatchInfo) (d : DeliveryInfo) :
    transform_record_st m d = (transform_record m d).map (fun r => (r, m)) := by
  rw [transform_record_eq]
  by_cases h1 : d.runs_total = d.runs_batter + d.runs_extras <;>
  by_cases h2 : 0 ≤ d.over_number <;>
  by_cases h3 : 1 ≤ d.ball_number ∧ d.ball_number ≤ m.balls_per_over <;>
  by_cases h4 : 1 ≤ d.innings_number <;>
  simp only [transform_record_st, transformedRecord, merged_missing_empty, merged_check_required,
    merged_runs_total, merged_runs_batter, merged_runs_extras, merged_over_number,
    merged_balls_per_over, merged_ball_number, merged_innings_number,
    mergedAssert_match_date, mergedAssert_match_type, mergedAssert_venue, mergedAssert_city, mergedAssert_teams, mergedAssert_innings_number, mergedAssert_batting_team, mergedAssert_bowling_team, mergedAssert_over_number, mergedAssert_ball_number, mergedAssert_batter, mergedAssert_non_striker, mergedAssert_bowler, mergedAssert_runs_batter, mergedAssert_runs_extras, mergedAssert_runs_total,
    exOk_bind, exError_bind, exThrow_eq, exPure_eq, exMap_error, exMap_ok,
    exceptMap_ok, exceptMap_error, Option.getD_some, h1, h2, h3, h4,
    eq_self_iff_true, not_true, not_false_iff, ite_true, ite_false,
    and_self, true_and, and_true]

/-- The threaded delivery loop equals the plain one, with the `MatchInfo`
state coming back unchanged. -/
theorem processDeliveries_st_eq (ov inn : Int) (bt bw : String) :
    ∀ (ds : List SrcDelivery) (m : MatchInfo) (bn lc : Int),
      processDeliveries_st ov inn bt bw ds m bn lc =
        (processDeliveries m ov inn bt bw ds bn lc).map (fun p => (p.1, p.2, m)) := by
  intro ds
  induction ds with
  | nil => intro m bn lc; rfl
  | cons dl rest ih =>
    intro m bn lc
    rw [processDeliveries_st, processDeliveries]
    cases hd : _process_delivery dl ov bn inn bt bw with
    | error e => rw [exError_bind, exError_bind]; rfl
    | ok di =>
      rw [exOk_bind, exOk_bind, transform_record_st_eq]
      cases ht : transform_record m di with
      | error e => rw [exceptMap_error, exError_bind, exError_bind]; rfl
      | ok rec =>
        simp only [exceptMap_ok, exOk_bind, ih]
        cases hpd : processDeliveries m ov inn bt bw rest
            (if isLegalDelivery dl then bn + 1 else bn)
            (if isLegalDelivery dl then lc + 1 else lc) with
        | error e => simp only [exceptMap_error, exError_bind]
        | ok p => simp only [exceptMap_ok, exOk_bind]; rfl

/-- The threaded `_process_over` equals the plain one, state unchanged. -/
theorem _process_over_st_eq (o : SrcOver) (inn : Int) (bt bw : String) (m : MatchInfo) :
    _process_over_st o inn bt bw m =
      (_process_over o inn bt bw m).map (fun recs => (recs, m)) := by
  rw [_process_over_st, _process_over, processDeliveries_st_eq]
  cases hpd : processDeliveries m o.over inn bt bw o.deliveries 1 0 with
  | error e => rw [exceptMap_error, exError_bind, exError_bind]; rfl
  | ok p =>
    rw [exceptMap_ok, exOk_bind, exOk_bind]
    by_cases hover : p.2 > m.balls_per_over
    · simp only [hover, if_true, ite_true, exThrow_eq, exError_bind, exceptMap_error]
    · simp only [hover, if_false, ite_false, exPure_eq, exOk_bind, exceptMap_ok]

/-- The threaded over loop equals the plain one, state unchanged. -/
theorem processOvers_st_eq (inn : Int) (bt bw : String) :
    ∀ (overs : List SrcOver) (m : MatchInfo),
      processOvers_st inn bt bw overs m =
        (processOvers m inn bt bw overs).map (fun recs => (recs, m)) := by
  intro overs
  induction overs with
  | nil => intro m; rfl
  | cons o rest ih =>
    intro m
    rw [processOvers_st, processOvers, _process_over_st_eq]
    cases hpo : _process_over o inn bt bw m with
    | error e => rw [exceptMap_error, exError_bind, exError_bind]; rfl
    | ok rs =>
      simp only [exceptMap_ok, exOk_bind, ih]
      cases hrest : processOvers m inn bt bw rest with
      | error e => simp only [exceptMap_error, exError_bind]
      | ok more => simp only [exceptMap_ok, exOk_bind]; rfl

/-- The threaded `_process_innings` equals the plain one, state unchanged. -/
theorem _process_innings_st_eq (innings : SrcInnings) (n : Int) (m : MatchInfo) :
    _process_innings_st innings n m =
      (_process_innings innings n m).map (fun recs => (recs, m)) := by
  rw [_process_innings_st, _process_innings]
  cases hf : m.teams.find? (fun t => t != innings.team) with
  | none => rfl
  | some bw =>
    simp only [exPure_eq, exOk_bind]
    exact processOvers_st_eq n innings.team bw innings.overs m

/-- The threaded innings loop equals the plain one, state unchanged. -/
theorem processInningsFrom_st_eq :
    ∀ (inns : List SrcInnings) (n : Int) (m : MatchInfo),
      processInningsFrom_st n inns m =
        (processInningsFrom m n inns).map (fun recs => (recs, m)) := by
  intro inns
  induction inns with
  | nil => intro n m; rfl
  | cons innings rest ih =>
    intro n m
    rw [processInningsFrom_st, processInningsFrom, _process_innings_st_eq]
    cases hpi : _process_innings innings n m with
    | error e => rw [exceptMap_error, exError_bind, exError_bind]; rfl
    | ok rs =>
      simp only [exceptMap_ok, exOk_bind, ih]
      cases hrest : processInningsFrom m (n + 1) rest with
      | error e => simp only [exceptMap_error, exError_bind]
      | ok more => simp only [exceptMap_ok, exOk_bind]; rfl

/-- C9: the `MatchInfo` is never mutated. The transformer, handed the
`MatchInfo` object's state, returns it unchanged alongside the plain
result; and the whole state-threaded pipeline — in which every delivery's
transform receives the `MatchInfo` left by the previous one — produces the
plain pipeline's records with the initially constructed `MatchInfo` coming
back field-for-field unchanged, so one shared value serves every delivery
of the document. -/
theorem c9_matchinfo_immutable :
    (∀ (m : MatchInfo) (d : DeliveryInfo),
      transform_record_st m d = (transform_record m d).map (fun r => (r, m))) ∧
    (∀ (doc : SrcDoc) (m : MatchInfo),
      _extract_match_info doc.info = Except.ok m →
      _parse_data_st doc = (_parse_data doc).map (fun recs => (recs, m))) := by
  constructor
  · exact transform_record_st_eq
  · intro doc m hm
    rw [_parse_data_st, _parse_data, hm, exOk_bind, exOk_bind]
    exact processInningsFrom_st_eq doc.innings 1 m

/-- C9 (witness): the threaded pipeline on the minimal document returns the
records together with the unchanged extracted `MatchInfo`. -/
theorem c9_witness :
    _parse_data_st sampleDoc =
      (_parse_data sampleDoc).map (fun recs => (recs, sampleMatch)) :=
  c9_matchinfo_immutable.2 sampleDoc sampleMatch rfl

/-! ## Round-trip correctness of the JSON writer and loader -/

mutual
/-- Node count of a JSON value (fuel bound for the parser). -/
def jsonSize : Json → Nat
  | Json.null => 1
  | Json.bool _ => 1
  | Json.int _ => 1
  | Json.str _ => 1
  | Json.arr vs => 1 + jsonListSize vs
  | Json.obj kvs => 1 + jsonObjSize kvs

/-- Total node count of array elements. -/
def jsonListSize : List Json → Nat
  | [] => 0
  | v :: vs => 1 + jsonSize v + jsonListSize vs

/-- Total node count of object members. -/
def jsonObjSize : List (String × Json) → Nat
  | [] => 0
  | (_, v) :: kvs => 1 + jsonSize v + jsonObjSize kvs
end

theorem jsonSize_pos (v : Json) : 1 ≤ jsonSize v := by
  cases v <;> simp [jsonSize]

theorem digVal_digCh {d : Nat} (h : d < 10) : digVal (digCh d) = d := by
  interval_cases d <;> rfl

theorem isDigitCh_digCh {d : Nat} (h : d < 10) : isDigitCh (digCh d) = true := by
  interval_cases d <;> rfl

theorem isWsCh_digCh {d : Nat} (h : d < 10) : isWsCh (digCh d) = false := by
  interval_cases d <;> rfl

theorem natChars_ne_nil (n : Nat) : natChars n ≠ [] := by
  rw [natChars]
  by_cases h : n = 0
  · simp [h]
  · simp only [h, if_false, ite_false]
    have : Nat.digits 10 n ≠ [] := Nat.digits_ne_nil_iff_ne_zero.mpr h
    simp [this]

theorem natChars_all_digits (n : Nat) : ∀ c ∈ natChars n, isDigitCh c = true := by
  rw [natChars]
  by_cases h : n = 0
  · simp [h]
    rfl
  · simp only [h, if_false, ite_false]
    intro c hc
    rw [List.mem_map] at hc
    obtain ⟨d, hd, rfl⟩ := hc
    rw [List.mem_reverse] at hd
    exact isDigitCh_digCh (Nat.digits_lt_base (by norm_num) hd)

theorem foldl_digCh_reverse (L : List Nat) (hL : ∀ d ∈ L, d < 10) :
    ((L.reverse).map digCh).foldl (fun a c => a * 10 + digVal c) 0 = Nat.ofDigits 10 L := by
  induction L with
  | nil => rfl
  | cons d t ih =>
    have hd : d < 10 := hL d (List.mem_cons_self d t)
    have ht : ∀ x ∈ t, x < 10 := fun x hx => hL x (List.mem_cons_of_mem d hx)
    rw [List.reverse_cons, List.map_append, List.foldl_append, ih ht]
    simp [Nat.ofDigits_cons, digVal_digCh hd]
    ring

theorem foldl_natChars (n : Nat) :
    (natChars n).foldl (fun a c => a * 10 + digVal c) 0 = n := by
  rw [natChars]
  by_cases h : n = 0
  · simp [h]
    rfl
  · simp only [h, if_false, ite_false]
    rw [foldl_digCh_reverse (Nat.digits 10 n) (fun d hd => Nat.digits_lt_base (by norm_num) hd)]
    exact Nat.ofDigits_digits 10 n

theorem takeWhile_append_all {p : Char → Bool} :
    ∀ (xs ys : List Char), (∀ x ∈ xs, p x = true) →
      (xs ++ ys).takeWhile p = xs ++ ys.takeWhile p := by
  intro xs ys h
  induction xs with
  | nil => rfl
  | cons x t ih =>
    have hx : p x = true := h x (List.mem_cons_self x t)
    simp only [List.cons_append, List.takeWhile_cons, hx, ite_true]
    rw [ih (fun a ha => h a (List.mem_cons_of_mem x ha))]

theorem dropWhile_append_all {p : Char → Bool} :
    ∀ (xs ys : List Char), (∀ x ∈ xs, p x = true) →
      (xs ++ ys).dropWhile p = ys.dropWhile p := by
  intro xs ys h
  induction xs with
  | nil => rfl
  | cons x t ih =>
    have hx : p x = true := h x (List.mem_cons_self x t)
    simp only [List.cons_append, List.dropWhile_cons, hx, ite_true]
    exact ih (fun a ha => h a (List.mem_cons_of_mem x ha))

/-- A list whose head is not a digit contributes nothing to a digit run. -/
def noDigitStart (l : List Char) : Prop :=
  ∀ c, l.head? = some c → isDigitCh c = false

theorem takeWhile_nil_of_noDigit {l : List Char} (h : noDigitStart l) :
    l.takeWhile isDigitCh = [] := by
  cases l with
  | nil => rfl
  | cons c t =>
    have := h c rfl
    simp [List.takeWhile_cons, this]

theorem dropWhile_id_of_noDigit {l : List Char} (h : noDigitStart l) :
    l.dropWhile isDigitCh = l := by
  cases l with
  | nil => rfl
  | cons c t =>
    have := h c rfl
    simp [List.dropWhile_cons, this]

/-- `parseNatPart` inverts `natChars` when the rest does not begin with a
digit. -/
theorem parseNatPart_natChars (n : Nat) (rest : List Char) (hrest : noDigitStart rest) :
    parseNatPart (natChars n ++ rest) = some (n, rest) := by
  rw [parseNatPart]
  rw [takeWhile_append_all (natChars n) rest (natChars_all_digits n),
      takeWhile_nil_of_noDigit hrest,
      dropWhile_append_all (natChars n) rest (natChars_all_digits n),
      dropWhile_id_of_noDigit hrest]
  simp only [List.append_nil]
  have hne : (natChars n).isEmpty = false := by
    cases hcz : natChars n with
    | nil => exact absurd hcz (natChars_ne_nil n)
    | cons a b => rfl
  simp only [hne, if_false, ite_false, Bool.false_eq_true, foldl_natChars]

theorem not_ws_of_digit {c : Char} (h : isDigitCh c = true) : isWsCh c = false := by
  by_cases e1 : c = ' '
  · subst e1; simp [isDigitCh] at h
  by_cases e2 : c = '\n'
  · subst e2; simp [isDigitCh] at h
  by_cases e3 : c = '\t'
  · subst e3; simp [isDigitCh] at h
  by_cases e4 : c = '\r'
  · subst e4; simp [isDigitCh] at h
  simp [isWsCh, e1, e2, e3, e4]

theorem digit_ne {c c' : Char} (h : isDigitCh c = true) (h' : isDigitCh c' = false) :
    c ≠ c' := by
  intro e
  rw [e, h'] at h
  cases h

theorem getLast?_mem_of_eq {l : List Char} {c : Char} (h : l.getLast? = some c) : c ∈ l := by
  cases l with
  | nil => simp at h
  | cons a t =>
    rw [List.getLast?_eq_getLast (a :: t) (by simp)] at h
    injection h with h
    rw [← h]
    exact List.getLast_mem (by simp)


theorem intChars_mem_kinds (n : Int) :
    ∀ c ∈ intChars n, c = '-' ∨ isDigitCh c = true := by
  intro c hc
  rw [intChars] at hc
  by_cases h : n < 0
  · simp only [h, if_true, ite_true, List.mem_cons] at hc
    rcases hc with hc | hc
    · exact Or.inl hc
    · exact Or.inr (natChars_all_digits _ c hc)
  · simp only [h, if_false, ite_false] at hc
    exact Or.inr (natChars_all_digits _ c hc)

theorem intChars_ne_nil (n : Int) : intChars n ≠ [] := by
  rw [intChars]
  by_cases h : n < 0 <;> simp [h, natChars_ne_nil]

/-- Every JSON dump starts with a non-whitespace character other than `]`. -/
theorem dump_head (v : Json) :
    ∃ c t, dumpVal v = c :: t ∧ isWsCh c = false ∧ c ≠ ']' := by
  cases v with
  | null => exact ⟨'n', ['u', 'l', 'l'], by rw [dumpVal], by decide, by decide⟩
  | bool b => cases b with
    | true => exact ⟨'t', ['r', 'u', 'e'], by rw [dumpVal], by decide, by decide⟩
    | false => exact ⟨'f', ['a', 'l', 's', 'e'], by rw [dumpVal], by decide, by decide⟩
  | str s => exact ⟨'"', escStr s.data ++ ['"'], by rw [dumpVal, strChars]; rfl, by decide, by decide⟩
  | arr vs => exact ⟨'[', dumpArr vs ++ [']'], by rw [dumpVal]; rfl, by decide, by decide⟩
  | obj kvs => exact ⟨'{', dumpObj kvs ++ ['}'], by rw [dumpVal]; rfl, by decide, by decide⟩
  | int n =>
    have hd : dumpVal (Json.int n) = intChars n := by rw [dumpVal]
    cases hic : intChars n with
    | nil => exact absurd hic (intChars_ne_nil n)
    | cons c t =>
      have hmem : c ∈ intChars n := by rw [hic]; exact List.mem_cons_self c t
      refine ⟨c, t, by rw [hd, hic], ?_, ?_⟩
      · rcases intChars_mem_kinds n c hmem with rfl | hdig
        · decide
        · exact not_ws_of_digit hdig
      · rcases intChars_mem_kinds n c hmem with rfl | hdig
        · decide
        · exact digit_ne hdig (by decide)

theorem skipWs_cons_of {c : Char} (h : isWsCh c = false) (l : List Char) :
    skipWs (c :: l) = c :: l := by
  simp [skipWs, List.dropWhile_cons, h]

/-- `parseStrBody` inverts the escaped body of a string literal. -/
theorem parseStrBody_escape :
    ∀ (s rest : List Char), parseStrBody (escStr s ++ '"' :: rest) = some (s, rest) := by
  intro s
  induction s with
  | nil =>
    intro rest
    show parseStrBody (escStr [] ++ '"' :: rest) = some ([], rest)
    rw [show escStr [] ++ '"' :: rest = '"' :: rest by simp [escStr], parseStrBody.eq_def]
    simp
  | cons c t ih =>
    intro rest
    have hes : escStr (c :: t) = escCh c ++ escStr t := by
      simp [escStr]
    rw [hes, List.append_assoc]
    by_cases e1 : c = '"'
    · subst e1
      rw [show escCh '"' = ['\\', '"'] from rfl]
      simp [parseStrBody, unescCh, ih rest]
    · by_cases e2 : c = '\\'
      · subst e2
        rw [show escCh '\\' = ['\\', '\\'] from rfl]
        simp [parseStrBody, unescCh, ih rest]
      · by_cases e3 : c = '\n'
        · subst e3
          rw [show escCh '\n' = ['\\', 'n'] from rfl]
          simp [parseStrBody, unescCh, ih rest]
        · by_cases e4 : c = '\r'
          · subst e4
            rw [show escCh '\r' = ['\\', 'r'] from rfl]
            simp [parseStrBody, unescCh, ih rest]
          · by_cases e5 : c = '\t'
            · subst e5
              rw [show escCh '\t' = ['\\', 't'] from rfl]
              simp [parseStrBody, unescCh, ih rest]
            · have hesc : escCh c = [c] := by
                simp [escCh, e1, e2, e3, e4, e5]
              rw [hesc, List.cons_append, List.nil_append, parseStrBody.eq_def]
              simp only [e1, e2, if_false, ite_false]
              simp [ih rest]

theorem natChars_head (n : Nat) : ∃ d t, d < 10 ∧ natChars n = digCh d :: t := by
  rw [natChars]
  by_cases h : n = 0
  · exact ⟨0, [], by norm_num, by simp [h]; rfl⟩
  · simp only [h, if_false, ite_false]
    cases hr : (Nat.digits 10 n).reverse with
    | nil =>
      exact absurd (List.reverse_eq_nil_iff.mp hr) (Nat.digits_ne_nil_iff_ne_zero.mpr h)
    | cons d ds =>
      have hd : d ∈ Nat.digits 10 n := by
        rw [← List.mem_reverse, hr]
        exact List.mem_cons_self d ds
      exact ⟨d, ds.map digCh, Nat.digits_lt_base (by norm_num) hd, by rfl⟩

/-- `parseVal` on a decimal-digit head parses the whole digit run. -/
theorem parseVal_natChars (f : Nat) (m : Nat) (rest : List Char) (hrest : noDigitStart rest) :
    parseVal (f + 1) (natChars m ++ rest) = some (Json.int (m : Int), rest) := by
  obtain ⟨d, t, hd, hnc⟩ := natChars_head m
  have hdig : isDigitCh (digCh d) = true := isDigitCh_digCh hd
  have hpn : parseNatPart (digCh d :: (t ++ rest)) = some (m, rest) := by
    rw [← List.cons_append, ← hnc]
    exact parseNatPart_natChars m rest hrest
  rw [hnc, List.cons_append, parseVal.eq_def]
  simp only [skipWs_cons_of (not_ws_of_digit hdig),
    if_neg (digit_ne hdig (by decide) : ¬ digCh d = '{'),
    if_neg (digit_ne hdig (by decide) : ¬ digCh d = '['),
    if_neg (digit_ne hdig (by decide) : ¬ digCh d = '"'),
    if_neg (digit_ne hdig (by decide) : ¬ digCh d = 't'),
    if_neg (digit_ne hdig (by decide) : ¬ digCh d = 'f'),
    if_neg (digit_ne hdig (by decide) : ¬ digCh d = 'n'),
    if_neg (digit_ne hdig (by decide) : ¬ digCh d = '-'),
    hpn]

/-- A non-empty array dump starts with a non-whitespace character other
than `]`. -/
theorem dumpArr_head (v : Json) (vs : List Json) :
    ∃ c t, dumpArr (v :: vs) = c :: t ∧ isWsCh c = false ∧ c ≠ ']' := by
  obtain ⟨c, t, hdv, hws, hc⟩ := dump_head v
  cases vs with
  | nil => exact ⟨c, t, by rw [dumpArr, hdv], hws, hc⟩
  | cons w ws =>
    exact ⟨c, t ++ ',' :: dumpArr (w :: ws), by rw [dumpArr, hdv] <;> simp, hws, hc⟩

/-- A non-empty object dump starts with the key's opening quote. -/
theorem dumpObj_head (k : String) (v : Json) (kvs : List (String × Json)) :
    ∃ t, dumpObj ((k, v) :: kvs) = '"' :: t := by
  cases kvs with
  | nil =>
    exact ⟨escStr k.data ++ ['"'] ++ ':' :: dumpVal v, by rw [dumpObj, strChars]; simp⟩
  | cons kv kvs' =>
    exact ⟨escStr k.data ++ ['"'] ++ ':' :: dumpVal v ++ ',' :: dumpObj (kv :: kvs'),
      by rw [dumpObj, strChars] <;> simp⟩


/-- Core round-trip lemma: with fuel at least the value's node count, the
parser inverts the dump, for values, array tails and object tails alike. -/
theorem parse_dump_all : ∀ f : Nat,
    (∀ (v : Json) (rest : List Char), jsonSize v ≤ f → noDigitStart rest →
      parseVal f (dumpVal v ++ rest) = some (v, rest)) ∧
    (∀ (vs : List Json) (rest : List Char), vs ≠ [] → jsonListSize vs ≤ f →
      parseArrItems f (dumpArr vs ++ ']' :: rest) = some (vs, rest)) ∧
    (∀ (kvs : List (String × Json)) (rest : List Char), kvs ≠ [] → jsonObjSize kvs ≤ f →
      parseObjItems f (dumpObj kvs ++ '}' :: rest) = some (kvs, rest)) := by
  intro f
  induction f with
  | zero =>
    refine ⟨?_, ?_, ?_⟩
    · intro v rest hs _
      exact absurd hs (by have := jsonSize_pos v; omega)
    · intro vs rest hne hs
      cases vs with
      | nil => exact absurd rfl hne
      | cons v vs' => rw [jsonListSize] at hs; omega
    · intro kvs rest hne hs
      cases kvs with
      | nil => exact absurd rfl hne
      | cons kv kvs' => obtain ⟨k, v⟩ := kv; rw [jsonObjSize] at hs; omega
  | succ f ih =>
    obtain ⟨ihP, ihQ, ihR⟩ := ih
    refine ⟨?_, ?_, ?_⟩
    · -- parseVal
      intro v rest hs hrest
      cases v with
      | null => rw [show dumpVal Json.null = ['n','u','l','l'] from by rw [dumpVal]]; rfl
      | bool b =>
        cases b with
        | true => rw [show dumpVal (Json.bool true) = ['t','r','u','e'] from by rw [dumpVal]]; rfl
        | false => rw [show dumpVal (Json.bool false) = ['f','a','l','s','e'] from by rw [dumpVal]]; rfl
      | str s =>
        rw [show dumpVal (Json.str s) ++ rest = '"' :: (escStr s.data ++ '"' :: rest) from
          by rw [dumpVal, strChars]; simp]
        rw [parseVal.eq_def]
        simp only [skipWs_cons_of (by decide : isWsCh '"' = false)]
        simp only [if_neg (by decide : ¬ ('"' : Char) = '{'), if_neg (by decide : ¬ ('"' : Char) = '['),
          if_pos (rfl : ('"' : Char) = '"'), parseStrBody_escape s.data rest]
        rfl
      | int n =>
        cases n with
        | ofNat m =>
          rw [show dumpVal (Json.int (Int.ofNat m)) = natChars m from
            by rw [dumpVal, intChars]; simp]
          exact parseVal_natChars f m rest hrest
        | negSucc k =>
          rw [show dumpVal (Json.int (Int.negSucc k)) = '-' :: natChars (k + 1) from
            by rw [dumpVal, intChars]; simp [Int.negSucc_lt_zero]]
          rw [List.cons_append, parseVal.eq_def]
          simp only [skipWs_cons_of (by decide : isWsCh '-' = false)]
          simp only [if_neg (by decide : ¬ ('-' : Char) = '{'),
            if_neg (by decide : ¬ ('-' : Char) = '['),
            if_neg (by decide : ¬ ('-' : Char) = '"'),
            if_neg (by decide : ¬ ('-' : Char) = 't'),
            if_neg (by decide : ¬ ('-' : Char) = 'f'),
            if_neg (by decide : ¬ ('-' : Char) = 'n'),
            if_pos (rfl : ('-' : Char) = '-'),
            parseNatPart_natChars (k + 1) rest hrest]
          rfl
      | arr vs =>
        rw [show dumpVal (Json.arr vs) ++ rest = '[' :: (dumpArr vs ++ ']' :: rest) from
          by rw [dumpVal]; simp]
        rw [parseVal.eq_def]
        simp only [skipWs_cons_of (by decide : isWsCh '[' = false),
          if_neg (by decide : ¬ ('[' : Char) = '{'), if_pos (rfl : ('[' : Char) = '['),
          ite_true, eq_self_iff_true]
        cases vs with
        | nil =>
          rw [show dumpArr ([] : List Json) ++ ']' :: rest = ']' :: rest from by rw [dumpArr]; rfl]
          rw [skipWs_cons_of (by decide : isWsCh ']' = false)]
          simp
        | cons v vs' =>
          obtain ⟨c, t, hda, hws, hc⟩ := dumpArr_head v vs'
          have hsz : jsonListSize (v :: vs') ≤ f := by
            rw [jsonSize] at hs; omega
          rw [hda, List.cons_append, skipWs_cons_of hws]
          simp only [if_neg hc]
          rw [← List.cons_append, ← hda, ihQ (v :: vs') rest (by simp) hsz]
      | obj kvs =>
        rw [show dumpVal (Json.obj kvs) ++ rest = '{' :: (dumpObj kvs ++ '}' :: rest) from
          by rw [dumpVal]; simp]
        rw [parseVal.eq_def]
        simp only [skipWs_cons_of (by decide : isWsCh '{' = false),
          if_pos (rfl : ('{' : Char) = '{'), ite_true, eq_self_iff_true]
        cases kvs with
        | nil =>
          rw [show dumpObj ([] : List (String × Json)) ++ '}' :: rest = '}' :: rest from
            by rw [dumpObj]; rfl]
          rw [skipWs_cons_of (by decide : isWsCh '}' = false)]
          simp
        | cons kv kvs' =>
          obtain ⟨k, v⟩ := kv
          obtain ⟨t, hdo⟩ := dumpObj_head k v kvs'
          have hsz : jsonObjSize ((k, v) :: kvs') ≤ f := by
            rw [jsonSize] at hs; omega
          rw [hdo, List.cons_append, skipWs_cons_of (by decide : isWsCh '"' = false)]
          simp only [if_neg (by decide : ¬ ('"' : Char) = '}')]
          rw [← List.cons_append, ← hdo, ihR ((k, v) :: kvs') rest (by simp) hsz]
    · -- parseArrItems
      intro vs rest hne hsz
      cases vs with
      | nil => exact absurd rfl hne
      | cons v vs' =>
        rw [parseArrItems.eq_def]
        cases vs' with
        | nil =>
          rw [show dumpArr [v] ++ ']' :: rest = dumpVal v ++ ']' :: rest from by rw [dumpArr]]
          have hv : jsonSize v ≤ f := by rw [jsonListSize] at hsz; omega
          simp only [ihP v (']' :: rest) hv (by intro c hc; injection hc with hc; rw [← hc]; decide),
            skipWs_cons_of (by decide : isWsCh ']' = false)]
        | cons w vs'' =>
          rw [show dumpArr (v :: w :: vs'') ++ ']' :: rest =
              dumpVal v ++ (',' :: (dumpArr (w :: vs'') ++ ']' :: rest)) from
            by rw [dumpArr] <;> simp]
          have hv : jsonSize v ≤ f := by rw [jsonListSize] at hsz; omega
          have hw : jsonListSize (w :: vs'') ≤ f := by
            rw [jsonListSize] at hsz; have := jsonSize_pos v; omega
          simp only [ihP v (',' :: (dumpArr (w :: vs'') ++ ']' :: rest)) hv
              (by intro c hc; injection hc with hc; rw [← hc]; decide),
            skipWs_cons_of (by decide : isWsCh ',' = false),
            ihQ (w :: vs'') rest (by simp) hw]
    · -- parseObjItems
      intro kvs rest hne hsz
      cases kvs with
      | nil => exact absurd rfl hne
      | cons kv kvs' =>
        obtain ⟨k, v⟩ := kv
        rw [parseObjItems.eq_def]
        cases kvs' with
        | nil =>
          rw [show dumpObj [(k, v)] ++ '}' :: rest =
              '"' :: (escStr k.data ++ '"' :: (':' :: (dumpVal v ++ '}' :: rest))) from
            by rw [dumpObj, strChars]; simp]
          have hv : jsonSize v ≤ f := by rw [jsonObjSize] at hsz; omega
          simp only [skipWs_cons_of (by decide : isWsCh '"' = false),
            parseStrBody_escape k.data (':' :: (dumpVal v ++ '}' :: rest)),
            skipWs_cons_of (by decide : isWsCh ':' = false),
            ihP v ('}' :: rest) hv (by intro c hc; injection hc with hc; rw [← hc]; decide),
            skipWs_cons_of (by decide : isWsCh '}' = false)]
        | cons kv2 kvs'' =>
          rw [show dumpObj ((k, v) :: kv2 :: kvs'') ++ '}' :: rest =
              '"' :: (escStr k.data ++ '"' :: (':' :: (dumpVal v ++
                (',' :: (dumpObj (kv2 :: kvs'') ++ '}' :: rest))))) from
            by rw [dumpObj, strChars] <;> simp]
          have hv : jsonSize v ≤ f := by rw [jsonObjSize] at hsz; omega
          have hk2 : jsonObjSize (kv2 :: kvs'') ≤ f := by
            rw [jsonObjSize] at hsz; have := jsonSize_pos v; omega
          simp only [skipWs_cons_of (by decide : isWsCh '"' = false),
            parseStrBody_escape k.data
              (':' :: (dumpVal v ++ (',' :: (dumpObj (kv2 :: kvs'') ++ '}' :: rest)))),
            skipWs_cons_of (by decide : isWsCh ':' = false),
            ihP v (',' :: (dumpObj (kv2 :: kvs'') ++ '}' :: rest)) hv
              (by intro c hc; injection hc with hc; rw [← hc]; decide),
            skipWs_cons_of (by decide : isWsCh ',' = false),
            ihR (kv2 :: kvs'') rest (by simp) hk2]

theorem escCh_no_newline (c : Char) : '\n' ∉ escCh c := by
  by_cases e1 : c = '"'
  · subst e1; decide
  by_cases e2 : c = '\\'
  · subst e2; decide
  by_cases e3 : c = '\n'
  · subst e3; decide
  by_cases e4 : c = '\r'
  · subst e4; decide
  by_cases e5 : c = '\t'
  · subst e5; decide
  simp [escCh, e1, e2, e3, e4, e5]
  exact fun h => e3 h.symm

theorem escStr_no_newline (s : List Char) : '\n' ∉ escStr s := by
  rw [escStr]
  intro h
  rw [List.mem_flatten] at h
  obtain ⟨l, hl, hmem⟩ := h
  rw [List.mem_map] at hl
  obtain ⟨c, _, rfl⟩ := hl
  exact escCh_no_newline c hmem

theorem natChars_no_newline (n : Nat) : '\n' ∉ natChars n := by
  intro h
  have := natChars_all_digits n '\n' h
  simp [isDigitCh] at this

theorem intChars_no_newline (n : Int) : '\n' ∉ intChars n := by
  intro h
  rcases intChars_mem_kinds n '\n' h with h' | h'
  · simp at h'
  · simp [isDigitCh] at h'

/-- No dump contains a newline: string content is escaped and all structural
characters are printable. -/
theorem dump_no_newline : ∀ f : Nat,
    (∀ v : Json, jsonSize v ≤ f → '\n' ∉ dumpVal v) ∧
    (∀ vs : List Json, jsonListSize vs ≤ f → '\n' ∉ dumpArr vs) ∧
    (∀ kvs : List (String × Json), jsonObjSize kvs ≤ f → '\n' ∉ dumpObj kvs) := by
  intro f
  induction f with
  | zero =>
    refine ⟨fun v hv => absurd hv (by have := jsonSize_pos v; omega), ?_, ?_⟩
    · intro vs hs
      cases vs with
      | nil => rw [dumpArr]; simp
      | cons v vs' => rw [jsonListSize] at hs; have := jsonSize_pos v; omega
    · intro kvs hs
      cases kvs with
      | nil => rw [dumpObj]; simp
      | cons kv kvs' =>
        obtain ⟨k, v⟩ := kv
        rw [jsonObjSize] at hs; have := jsonSize_pos v; omega
  | succ f ih =>
    obtain ⟨ihP, ihQ, ihR⟩ := ih
    refine ⟨?_, ?_, ?_⟩
    · intro v hs
      cases v with
      | null => rw [dumpVal]; decide
      | bool b => cases b <;> (rw [dumpVal]; decide)
      | int n => rw [dumpVal]; exact intChars_no_newline n
      | str s =>
        rw [dumpVal, strChars]
        simp [escStr_no_newline s.data]
      | arr vs =>
        rw [dumpVal]
        simp [ihQ vs (by rw [jsonSize] at hs; omega)]
      | obj kvs =>
        rw [dumpVal]
        simp [ihR kvs (by rw [jsonSize] at hs; omega)]
    · intro vs hs
      cases vs with
      | nil => rw [dumpArr]; simp
      | cons v vs' =>
        cases vs' with
        | nil =>
          rw [dumpArr]
          exact ihP v (by rw [jsonListSize, jsonListSize] at hs; omega)
        | cons w vs'' =>
          rw [show dumpArr (v :: w :: vs'') = dumpVal v ++ ',' :: dumpArr (w :: vs'') from
            by rw [dumpArr] <;> simp]
          simp [ihP v (by rw [jsonListSize] at hs; omega),
            ihQ (w :: vs'') (by rw [jsonListSize] at hs; have := jsonSize_pos v; omega)]
    · intro kvs hs
      cases kvs with
      | nil => rw [dumpObj]; simp
      | cons kv kvs' =>
        obtain ⟨k, v⟩ := kv
        cases kvs' with
        | nil =>
          rw [dumpObj, strChars]
          simp [escStr_no_newline k.data, ihP v (by rw [jsonObjSize] at hs; omega)]
        | cons kv2 kvs'' =>
          rw [show dumpObj ((k, v) :: kv2 :: kvs'') =
              strChars k ++ ':' :: dumpVal v ++ ',' :: dumpObj (kv2 :: kvs'') from
            by rw [dumpObj] <;> simp]
          rw [strChars]
          simp [escStr_no_newline k.data, ihP v (by rw [jsonObjSize] at hs; omega),
            ihR (kv2 :: kvs'') (by rw [jsonObjSize] at hs; have := jsonSize_pos v; omega)]

/-- The parser fuel `length + 1` used by `parseFullJson` is always enough:
a value's node count is bounded by its dump's length. -/
theorem jsonSize_le_dump_length : ∀ f : Nat,
    (∀ v : Json, jsonSize v ≤ f → jsonSize v ≤ (dumpVal v).length) ∧
    (∀ vs : List Json, jsonListSize vs ≤ f → jsonListSize vs ≤ (dumpArr vs).length + 1) ∧
    (∀ kvs : List (String × Json), jsonObjSize kvs ≤ f →
      jsonObjSize kvs ≤ (dumpObj kvs).length + 1) := by
  intro f
  induction f with
  | zero =>
    refine ⟨fun v hv => absurd hv (by have := jsonSize_pos v; omega), ?_, ?_⟩
    · intro vs hs
      cases vs with
      | nil => rw [jsonListSize]; omega
      | cons v vs' => rw [jsonListSize] at hs; have := jsonSize_pos v; omega
    · intro kvs hs
      cases kvs with
      | nil => rw [jsonObjSize]; omega
      | cons kv kvs' =>
        obtain ⟨k, v⟩ := kv
        rw [jsonObjSize] at hs; have := jsonSize_pos v; omega
  | succ f ih =>
    obtain ⟨ihP, ihQ, ihR⟩ := ih
    refine ⟨?_, ?_, ?_⟩
    · intro v hs
      cases v with
      | null => rw [dumpVal, jsonSize]; decide
      | bool b => cases b <;> (rw [dumpVal, jsonSize]) <;> decide
      | int n =>
        rw [dumpVal, jsonSize]
        cases hic : intChars n with
        | nil => exact absurd hic (intChars_ne_nil n)
        | cons c t => simp
      | str s =>
        rw [dumpVal, strChars, jsonSize]
        simp
      | arr vs =>
        rw [dumpVal, jsonSize]
        have := ihQ vs (by rw [jsonSize] at hs; omega)
        simp only [List.length_cons, List.length_append, List.length_singleton]
        omega
      | obj kvs =>
        rw [dumpVal, jsonSize]
        have := ihR kvs (by rw [jsonSize] at hs; omega)
        simp only [List.length_cons, List.length_append, List.length_singleton]
        omega
    · intro vs hs
      cases vs with
      | nil => rw [jsonListSize]; omega
      | cons v vs' =>
        cases vs' with
        | nil =>
          rw [show dumpArr [v] = dumpVal v from by rw [dumpArr]]
          rw [jsonListSize, jsonListSize]
          have := ihP v (by rw [jsonListSize, jsonListSize] at hs; omega)
          omega
        | cons w vs'' =>
          rw [show dumpArr (v :: w :: vs'') = dumpVal v ++ ',' :: dumpArr (w :: vs'') from
            by rw [dumpArr] <;> simp]
          rw [jsonListSize]
          have h1 := ihP v (by rw [jsonListSize] at hs; omega)
          have h2 := ihQ (w :: vs'')
            (by rw [jsonListSize] at hs; have := jsonSize_pos v; omega)
          simp only [List.length_append, List.length_cons]
          omega
    · intro kvs hs
      cases kvs with
      | nil => rw [jsonObjSize]; omega
      | cons kv kvs' =>
        obtain ⟨k, v⟩ := kv
        cases kvs' with
        | nil =>
          rw [show dumpObj [(k, v)] = strChars k ++ ':' :: dumpVal v from by rw [dumpObj]]
          rw [jsonObjSize, jsonObjSize]
          have := ihP v (by rw [jsonObjSize] at hs; omega)
          simp only [List.length_append, List.length_cons]
          omega
        | cons kv2 kvs'' =>
          rw [show dumpObj ((k, v) :: kv2 :: kvs'') =
              strChars k ++ ':' :: dumpVal v ++ ',' :: dumpObj (kv2 :: kvs'') from
            by rw [dumpObj] <;> simp]
          rw [jsonObjSize]
          have h1 := ihP v (by rw [jsonObjSize] at hs; omega)
          have h2 := ihR (kv2 :: kvs'')
            (by rw [jsonObjSize] at hs; have := jsonSize_pos v; omega)
          simp only [List.length_append, List.length_cons]
          omega

theorem natChars_last (n : Nat) :
    ∃ c, (natChars n).getLast? = some c ∧ isDigitCh c = true := by
  cases hnc : natChars n with
  | nil => exact absurd hnc (natChars_ne_nil n)
  | cons c t =>
    have hne : natChars n ≠ [] := natChars_ne_nil n
    refine ⟨(c :: t).getLast (by simp), ?_, ?_⟩
    · rw [List.getLast?_eq_getLast (c :: t) (by simp)]
    · refine natChars_all_digits n _ ?_
      rw [hnc]
      exact List.getLast_mem (by simp)

/-- Every JSON dump ends with a non-whitespace character. -/
theorem dump_last (v : Json) :
    ∃ c, (dumpVal v).getLast? = some c ∧ isWsCh c = false := by
  cases v with
  | null => exact ⟨'l', by rw [dumpVal]; rfl, by decide⟩
  | bool b => cases b with
    | true => exact ⟨'e', by rw [dumpVal]; rfl, by decide⟩
    | false => exact ⟨'e', by rw [dumpVal]; rfl, by decide⟩
  | str s =>
    refine ⟨'"', ?_, by decide⟩
    rw [dumpVal, strChars, show ('"' :: escStr s.data ++ ['"'] : List Char) =
      ('"' :: escStr s.data) ++ ['"'] from by simp, List.getLast?_concat]
  | arr vs =>
    refine ⟨']', ?_, by decide⟩
    rw [dumpVal, show ('[' :: dumpArr vs ++ ([']'] : List Char)) =
      ('[' :: dumpArr vs) ++ [']'] from by simp, List.getLast?_concat]
  | obj kvs =>
    refine ⟨'}', ?_, by decide⟩
    rw [dumpVal, show ('{' :: dumpObj kvs ++ (['}'] : List Char)) =
      ('{' :: dumpObj kvs) ++ ['}'] from by simp, List.getLast?_concat]
  | int n =>
    obtain ⟨c, hlast, hdig⟩ := natChars_last n.natAbs
    rw [dumpVal, intChars]
    by_cases h : n < 0
    · simp only [h, if_true, ite_true]
      refine ⟨c, ?_, not_ws_of_digit hdig⟩
      rw [List.getLast?_cons, hlast]
      rfl
    · simp only [h, if_false, ite_false]
      obtain ⟨c', hlast', hdig'⟩ := natChars_last n.toNat
      exact ⟨c', hlast', not_ws_of_digit hdig'⟩

/-- Stripping is the identity on a list with non-whitespace first and last
characters. -/
theorem stripChars_id {l : List Char} (hhead : ∀ c, l.head? = some c → isWsCh c = false)
    (hlast : ∀ c, l.getLast? = some c → isWsCh c = false) :
    stripChars l = l := by
  rw [stripChars]
  have h1 : l.dropWhile isWsCh = l := by
    cases l with
    | nil => rfl
    | cons c t => simp [List.dropWhile_cons, hhead c rfl]
  rw [h1]
  have h2 : l.reverse.dropWhile isWsCh = l.reverse := by
    cases hr : l.reverse with
    | nil => rfl
    | cons c t =>
      have : l.getLast? = some c := by
        rw [← List.head?_reverse, hr]
        rfl
      simp [List.dropWhile_cons, hlast c this]
  rw [h2, List.reverse_reverse]

theorem splitLines_append {l : List Char} (hl : '\n' ∉ l) (r : List Char) :
    splitLines (l ++ '\n' :: r) = l :: splitLines r := by
  induction l with
  | nil => rfl
  | cons c t ih =>
    have hc : ¬ c = '\n' := fun e => hl (by rw [e]; exact List.mem_cons_self _ _)
    rw [List.cons_append, splitLines, if_neg hc,
      ih (fun hm => hl (List.mem_cons_of_mem c hm))]

theorem skipWs_cons_ws {c : Char} (h : isWsCh c = true) (l : List Char) :
    skipWs (c :: l) = skipWs l := by
  simp [skipWs, List.dropWhile_cons, h]

/-- The whole-content parse of a single dumped value. -/
theorem parseFullJson_dump (r : Json) : parseFullJson (dumpVal r) = some r := by
  rw [parseFullJson]
  have hsize : jsonSize r ≤ (dumpVal r).length + 1 := by
    have := (jsonSize_le_dump_length (jsonSize r)).1 r le_rfl
    omega
  have hp := (parse_dump_all ((dumpVal r).length + 1)).1 r [] hsize (by intro c hc; cases hc)
  rw [List.append_nil] at hp
  rw [hp]
  rfl

/-- One dumped record followed by a newline and more content parses as the
record with the tail as rest. -/
theorem parseVal_dump_line (r : Json) (rest : List Char) (f : Nat)
    (hf : jsonSize r ≤ f) :
    parseVal f (dumpVal r ++ '\n' :: rest) = some (r, '\n' :: rest) :=
  (parse_dump_all f).1 r ('\n' :: rest) hf (by intro c hc; injection hc with hc; rw [← hc]; decide)

/-- The lines of the written output are the dumped records plus the empty
piece after the final newline. -/
theorem splitLines_write_output (records : List Json) :
    splitLines (write_output records) = records.map dumpVal ++ [[]] := by
  induction records with
  | nil => rfl
  | cons r rs ih =>
    have hw : write_output (r :: rs) = dumpVal r ++ '\n' :: write_output rs := by
      rw [write_output, write_output, List.map_cons, List.flatten_cons]
      simp
    rw [hw, splitLines_append ((dump_no_newline (jsonSize r)).1 r le_rfl) (write_output rs), ih]
    rfl

/-- The line-by-line fallback loop recovers exactly the dumped records. -/
theorem fallback_fold (records : List Json) :
    ∀ acc : List Json,
      (records.map dumpVal ++ [[]]).foldl
        (fun records line =>
          let line := stripChars line
          if line.isEmpty then records
          else
            match parseFullJson line with
            | some record => records ++ [record]
            | none => records) acc = acc ++ records := by
  induction records with
  | nil =>
    intro acc
    simp [show stripChars [] = [] from rfl]
  | cons r rs ih =>
    intro acc
    rw [List.map_cons, List.cons_append, List.foldl_cons]
    obtain ⟨c, t, hdv, hws, _⟩ := dump_head r
    have hstrip : stripChars (dumpVal r) = dumpVal r := by
      refine stripChars_id ?_ ?_
      · intro c' hc'
        rw [hdv] at hc'
        injection hc' with hc'
        rw [← hc']
        exact hws
      · intro c' hc'
        obtain ⟨cl, hcl, hclws⟩ := dump_last r
        rw [hcl] at hc'
        injection hc' with hc'
        rw [← hc']
        exact hclws
    have hne : (dumpVal r).isEmpty = false := by rw [hdv]; rfl
    simp only [hstrip, hne, if_false, ite_false, Bool.false_eq_true, parseFullJson_dump r]
    rw [ih (acc ++ [r])]
    simp

/-- C5: writing any list of records (JSON objects, as all pipeline records
are) to newline-delimited JSON and loading the file back yields the same
records in the same order. With two or more records the whole-file parse
fails (trailing content) and with one it yields a non-array, so the loader
falls back to line-by-line parsing, and every line parses back to its
record. -/
theorem c5_round_trip (records : List Json)
    (hobj : ∀ r ∈ records, ∃ kvs, r = Json.obj kvs) :
    _load_file (write_output records) = records := by
  cases records with
  | nil => rfl
  | cons r1 rs =>
    cases rs with
    | nil =>
      have hw : write_output [r1] = dumpVal r1 ++ '\n' :: [] := by
        rw [write_output]
        simp
      have hparse : parseFullJson (write_output [r1]) = some r1 := by
        rw [hw, parseFullJson]
        have hlen := (jsonSize_le_dump_length (jsonSize r1)).1 r1 le_rfl
        rw [parseVal_dump_line r1 [] ((dumpVal r1 ++ '\n' :: []).length + 1)
          (by simp [List.length_append]; omega)]
        rfl
      obtain ⟨kvs, rfl⟩ := hobj r1 (List.mem_singleton.mpr rfl)
      rw [_load_file, hparse]
      rw [splitLines_write_output [Json.obj kvs]]
      exact (fallback_fold [Json.obj kvs] []).trans (by simp)
    | cons r2 rs' =>
      have hw : write_output (r1 :: r2 :: rs') =
          dumpVal r1 ++ '\n' :: write_output (r2 :: rs') := by
        rw [write_output, write_output, List.map_cons, List.flatten_cons]
        simp
      have hw2 : write_output (r2 :: rs') = dumpVal r2 ++ '\n' :: write_output rs' := by
        rw [write_output, write_output, List.map_cons, List.flatten_cons]
        simp
      obtain ⟨c, t, hdv, hws, _⟩ := dump_head r2
      have hparse : parseFullJson (write_output (r1 :: r2 :: rs')) = none := by
        rw [hw, parseFullJson]
        have hlen := (jsonSize_le_dump_length (jsonSize r1)).1 r1 le_rfl
        rw [parseVal_dump_line r1 (write_output (r2 :: rs'))
          ((dumpVal r1 ++ '\n' :: write_output (r2 :: rs')).length + 1)
          (by simp [List.length_append]; omega)]
        simp only [skipWs_cons_ws (by decide : isWsCh '\n' = true)]
        rw [hw2, hdv, List.cons_append, skipWs_cons_of hws]
        rfl
      rw [_load_file, hparse]
      rw [splitLines_write_output (r1 :: r2 :: rs')]
      exact (fallback_fold (r1 :: r2 :: rs') []).trans (by simp)

/-- Two concrete flat records. -/
def sampleRecordA : Json :=
  Json.obj [("match_date", Json.str "2020-01-01"), ("runs_total", Json.int 4)]

/-- A second concrete flat record. -/
def sampleRecordB : Json :=
  Json.obj [("batter", Json.str "x"), ("wicket_fielders", Json.arr [])]

/-- C5 (witness): the round trip on a concrete two-record list. -/
theorem c5_witness :
    _load_file (write_output [sampleRecordA, sampleRecordB]) = [sampleRecordA, sampleRecordB] :=
  c5_round_trip [sampleRecordA, sampleRecordB] (by
    intro r hr
    rcases List.mem_cons.mp hr with rfl | hr
    · exact ⟨_, rfl⟩
    · rcases List.mem_cons.mp hr with rfl | hr
      · exact ⟨_, rfl⟩
      · cases hr)

/-- C10: when the whole file content parses as valid JSON that is not an
array — e.g. a single JSON object — `_load_file` falls back to line-by-line
parsing; a file holding one object on one line yields that one record, and
empty or unparseable lines are skipped while loading continues. -/
theorem c10_fallback :
    (∀ (content : List Char) (kvs : List (String × Json)),
      parseFullJson content = some (Json.obj kvs) →
      _load_file content =
        (splitLines content).foldl
          (fun records line =>
            let line := stripChars line
            if line.isEmpty then records
            else
              match parseFullJson line with
              | some record => records ++ [record]
              | none => records)
          []) ∧
    _load_file ("\x7b\"a\": 1\x7d".data) = [Json.obj [("a", Json.int 1)]] ∧
    _load_file ("\x7b\"a\": 1\x7d\n\nnot json\n\x7b\"b\": 2\x7d\n".data) =
      [Json.obj [("a", Json.int 1)], Json.obj [("b", Json.int 2)]] := by
  refine ⟨?_, rfl, rfl⟩
  intro content kvs h
  rw [_load_file, h]

/-- C10 (witness): the fallback equation applied to the one-object file. -/
theorem c10_witness :
    _load_file ("\x7b\"a\": 1\x7d".data) =
      (splitLines ("\x7b\"a\": 1\x7d".data)).foldl
        (fun records line =>
          let line := stripChars line
          if line.isEmpty then records
          else
            match parseFullJson line with
            | some record => records ++ [record]
            | none => records)
        [] :=
  c10_fallback.1 ("\x7b\"a\": 1\x7d".data) [("a", Json.int 1)] rfl
